import Mathlib

/-!
Verification development for the dreadlang compiler core (tokenizer,
recursive-descent parser, x86-64 code generator).  The Go sources are
shallowly embedded: strings become `String`/`List Char`, Go maps keyed by
strings become insertion-ordered association lists (lookup takes the first
match, insertion overwrites by shadowing), the append-only
`strings.Builder` output becomes returned string chunks concatenated in
emission order, and Go's unspecified map-range order in the data-section
writer becomes an explicit iteration-order parameter.
-/

set_option maxRecDepth 20000

namespace Dread

/-- Whether `pat` occurs as a contiguous subsequence of `s` (used only in
theorem statements, to check emitted text for instruction occurrences). -/
def containsSeq : List Char → List Char → Bool
  | [], pat => pat.isEmpty
  | c :: rest, pat => pat.isPrefixOf (c :: rest) || containsSeq rest pat

/-- The single-quote character, written numerically. -/
def squoteChar : Char := Char.ofNat 39

/-- The left-brace character, written numerically. -/
def lbraceChar : Char := Char.ofNat 123

/-- The right-brace character, written numerically. -/
def rbraceChar : Char := Char.ofNat 125

/-- The NUL character; the Go lexer uses the zero byte as its end-of-input
sentinel, so a literal NUL in the input is treated as end of input. -/
def nulChar : Char := Char.ofNat 0

/-- Token kinds.  Modelled from the spec: the current lexer source (the one
declaring `FUNCTION`, `STRING_TYPE`, `VOID_TYPE` and `COMMA`, which the
parser in the snapshot references and MILESTONES.md records as implemented)
is missing from the source snapshot; only an older `internal/lexer/lexer.go`
survives.  The enumeration below extends that older file's `TokenType` with
exactly the four token kinds the current parser requires. -/
inductive TokenType where
  | ILLEGAL
  | EOF
  | IDENT
  | STRING
  | INT
  | ENTRY
  | FUNCTION
  | PRINT
  | RETURN
  | INT_TYPE
  | STRING_TYPE
  | VOID_TYPE
  | LPAREN
  | RPAREN
  | LBRACE
  | RBRACE
  | ASSIGN
  | COMMA
  | COMMENT
deriving DecidableEq, Repr

/-- Mirror of the Go `TokenType.String()` method (used only inside parser
diagnostics).  Modelled from the spec for the four token kinds missing from
the surviving lexer file. -/
def TokenType.goString : TokenType → String
  | .ILLEGAL => "ILLEGAL"
  | .EOF => "EOF"
  | .IDENT => "IDENT"
  | .STRING => "STRING"
  | .INT => "INT"
  | .ENTRY => "ENTRY"
  | .FUNCTION => "FUNCTION"
  | .PRINT => "PRINT"
  | .RETURN => "RETURN"
  | .INT_TYPE => "INT_TYPE"
  | .STRING_TYPE => "STRING_TYPE"
  | .VOID_TYPE => "VOID_TYPE"
  | .LPAREN => "LPAREN"
  | .RPAREN => "RPAREN"
  | .LBRACE => "LBRACE"
  | .RBRACE => "RBRACE"
  | .ASSIGN => "ASSIGN"
  | .COMMA => "COMMA"
  | .COMMENT => "COMMENT"

/-- A token: kind, literal text and source position, as in `lexer.Token`. -/
structure Token where
  type : TokenType
  literal : String
  line : Nat
  column : Nat
deriving DecidableEq, Repr

/-- Lexer state: the unread input suffix plus line/column bookkeeping.
The Go lexer keeps an index pair into a fixed string; consuming a character
here means dropping the head of `input`. -/
structure Lexer where
  input : List Char
  line : Nat
  column : Nat
deriving DecidableEq, Repr

/-- `lexer.New`: a fresh lexer over a whole source text. -/
def lexerNew (s : List Char) : Lexer := ⟨s, 1, 0⟩

/-- `isLetter` from the lexer. -/
def isLetter (c : Char) : Bool :=
  ('a' ≤ c && c ≤ 'z') || ('A' ≤ c && c ≤ 'Z') || c = '_'

/-- `isDigit` from the lexer. -/
def isDigit (c : Char) : Bool :=
  '0' ≤ c && c ≤ '9'

/-- The keyword table (`keywords` map plus `lookupIdent`).  Modelled from
the spec for the `Function`, `String` and `Void` keywords missing from the
surviving lexer file. -/
def lookupIdent (s : String) : TokenType :=
  if s = "Entry" then .ENTRY
  else if s = "Function" then .FUNCTION
  else if s = "Print" then .PRINT
  else if s = "Return" then .RETURN
  else if s = "Int" then .INT_TYPE
  else if s = "String" then .STRING_TYPE
  else if s = "Void" then .VOID_TYPE
  else .IDENT

/-- Whitespace recognized by `skipWhitespace`. -/
def isWhitespaceCh (c : Char) : Bool :=
  c = ' ' || c = '\t' || c = '\n' || c = '\r'

mutual

/-- Combined whitespace and comment skipping.  In the Go source,
`NextToken` calls `skipWhitespace` and, on seeing a comment opener, calls
`skipLineComment`/`skipBlockComment` and retries itself; iterating that
retry loop skips exactly the maximal run of whitespace and comments, which
is what this function computes, consuming character by character. -/
def skipTrivia : List Char → Nat → Nat → Lexer
  | [], line, col => ⟨[], line, col⟩
  | c :: rest, line, col =>
    if c = '\n' then skipTrivia rest (line + 1) 0
    else if c = ' ' || c = '\t' || c = '\r' then skipTrivia rest line (col + 1)
    else if c = '/' then
      match rest with
      | '/' :: rest2 => skipLineComment rest2 line (col + 2)
      | '*' :: rest2 => skipBlockComment rest2 line (col + 2)
      | _ => ⟨c :: rest, line, col⟩
    else ⟨c :: rest, line, col⟩

/-- `skipLineComment`: consume to the end of the line, then continue
skipping trivia (the newline itself is consumed as whitespace). -/
def skipLineComment : List Char → Nat → Nat → Lexer
  | [], line, col => ⟨[], line, col⟩
  | c :: rest, line, col =>
    if c = '\n' then skipTrivia rest (line + 1) 0
    else skipLineComment rest line (col + 1)

/-- `skipBlockComment`: consume until the matching `*/` or end of input,
then continue skipping trivia. -/
def skipBlockComment : List Char → Nat → Nat → Lexer
  | [], line, col => ⟨[], line, col⟩
  | '*' :: '/' :: rest2, line, col => skipTrivia rest2 line (col + 2)
  | '\n' :: rest, line, col => skipBlockComment rest (line + 1) 0
  | _ :: rest, line, col => skipBlockComment rest line (col + 1)

end

/-- `readIdentifier`: the maximal run of letters, digits and underscores.
Returns the consumed characters and the remaining input. -/
def readIdentifier : List Char → List Char × List Char
  | [] => ([], [])
  | c :: rest =>
    if isLetter c || isDigit c || c = '_' then
      let (cs, r) := readIdentifier rest
      (c :: cs, r)
    else ([], c :: rest)

/-- `readNumber`: the maximal run of decimal digits. -/
def readNumber : List Char → List Char × List Char
  | [] => ([], [])
  | c :: rest =>
    if isDigit c then
      let (cs, r) := readNumber rest
      (c :: cs, r)
    else ([], c :: rest)

/-- `readString`, starting just after the opening quote: scan to the first
unescaped single quote (or NUL, or end of input); a backslash whose
successor exists and is not NUL consumes that successor verbatim.  Returns
the literal's characters (terminator excluded) and the input remaining
after the terminator (which `NextToken` skips with its final `readChar`). -/
def readString : List Char → List Char × List Char
  | [] => ([], [])
  | c :: rest =>
    if c = squoteChar || c = nulChar then ([], rest)
    else if c = '\\' then
      match rest with
      | [] => ([c], [])
      | d :: rest2 =>
        if d = nulChar then ([c], rest2)
        else
          let (cs, r) := readString rest2
          (c :: d :: cs, r)
    else
      let (cs, r) := readString rest
      (c :: cs, r)

/-- `NextToken`: skip trivia, then dispatch on the current character
exactly as the Go `switch` does.  The `/` that does not open a comment
falls through to the illegal-token default, as in the source. -/
def nextToken (l : Lexer) : Token × Lexer :=
  let lt := skipTrivia l.input l.line l.column
  match lt.input with
  | [] => (⟨.EOF, "", lt.line, lt.column⟩, lt)
  | c :: rest =>
    if c = '=' then
      (⟨.ASSIGN, String.singleton c, lt.line, lt.column⟩, ⟨rest, lt.line, lt.column + 1⟩)
    else if c = '(' then
      (⟨.LPAREN, String.singleton c, lt.line, lt.column⟩, ⟨rest, lt.line, lt.column + 1⟩)
    else if c = ')' then
      (⟨.RPAREN, String.singleton c, lt.line, lt.column⟩, ⟨rest, lt.line, lt.column + 1⟩)
    else if c = lbraceChar then
      (⟨.LBRACE, String.singleton c, lt.line, lt.column⟩, ⟨rest, lt.line, lt.column + 1⟩)
    else if c = rbraceChar then
      (⟨.RBRACE, String.singleton c, lt.line, lt.column⟩, ⟨rest, lt.line, lt.column + 1⟩)
    else if c = ',' then
      (⟨.COMMA, String.singleton c, lt.line, lt.column⟩, ⟨rest, lt.line, lt.column + 1⟩)
    else if c = squoteChar then
      let (cs, r) := readString rest
      let consumed := rest.length - r.length + 1
      (⟨.STRING, ⟨cs⟩, lt.line, lt.column + consumed⟩, ⟨r, lt.line, lt.column + consumed⟩)
    else if c = nulChar then
      (⟨.EOF, "", lt.line, lt.column⟩, ⟨rest, lt.line, lt.column + 1⟩)
    else if isLetter c then
      let (cs, r) := readIdentifier (c :: rest)
      (⟨lookupIdent ⟨cs⟩, ⟨cs⟩, lt.line, lt.column⟩, ⟨r, lt.line, lt.column + cs.length⟩)
    else if isDigit c then
      let (cs, r) := readNumber (c :: rest)
      (⟨.INT, ⟨cs⟩, lt.line, lt.column⟩, ⟨r, lt.line, lt.column + cs.length⟩)
    else
      (⟨.ILLEGAL, String.singleton c, lt.line, lt.column⟩, ⟨rest, lt.line, lt.column + 1⟩)

/-- Run the lexer to completion, with fuel bounding the number of tokens
(each non-final token consumes at least one character, so input length
plus one always suffices; see `tokenizeF_fuel_irrelevant`). -/
def tokenizeF : Nat → Lexer → List Token
  | 0, _ => []
  | fuel + 1, l =>
    let (t, l2) := nextToken l
    if t.type = .EOF then [t] else t :: tokenizeF fuel l2

/-- The full token stream of an input, ending with the end-of-input token. -/
def tokenize (l : Lexer) : List Token :=
  tokenizeF (l.input.length + 1) l

/-! ## AST (`internal/parser`, current version) -/

/-- `parser.Parameter`. -/
structure Parameter where
  name : String
  type : String
deriving DecidableEq, Repr

/-- `parser.Expression` variants.  `CallExpression` holds a callee name and
argument expressions. -/
inductive Expr where
  | stringLit (value : String)
  | intLit (value : Int)
  | identifier (value : String)
  | callExpr (function : String) (args : List Expr)

/-- `parser.Statement` variants.  A `FunctionStatement`'s body is a
`BlockStatement`; its statement list is inlined here as `body`.  Production
functions that can return a nil expression are modelled with `Option`, so
`AssignStatement.Value` is an `Option Expr`. -/
inductive Stmt where
  | functionStmt (isEntry : Bool) (name : String) (parameters : List Parameter)
      (returnType : String) (body : List Stmt)
  | blockStmt (statements : List Stmt)
  | assignStmt (name : String) (value : Option Expr)
  | callStmt (function : String) (args : List Expr)

/-- `parser.Program`. -/
structure Program where
  statements : List Stmt

/-! ## Parser (`internal/parser`, current version)

The parser keeps a current token, a peek token, the lexer it draws from,
and the accumulated diagnostic list, as in the Go `Parser` struct.  The
mutually recursive productions take a fuel argument (decremented at every
production call) purely to satisfy Lean's termination checker; theorem
`C10`'s development proves the fuel chosen by `ParseProgram` is never
exhausted, which is the termination argument for the Go original. -/

/-- Parser state (`Parser` struct). -/
structure PState where
  curToken : Token
  peekToken : Token
  lex : Lexer
  errors : List String
deriving DecidableEq, Repr

/-- `Parser.nextToken`: slide the token window forward by one. -/
def pNext (ps : PState) : PState :=
  let (t, l2) := nextToken ps.lex
  ⟨ps.peekToken, t, l2, ps.errors⟩

/-- The zero value of `lexer.Token` in Go (type tag 0 is `ILLEGAL`). -/
def zeroToken : Token := ⟨.ILLEGAL, "", 0, 0⟩

/-- `parser.New`: prime `curToken` and `peekToken` with two reads. -/
def parserNew (l : Lexer) : PState :=
  pNext (pNext ⟨zeroToken, zeroToken, l, []⟩)

/-- `peekError`: append the token-expectation diagnostic. -/
def peekError (ps : PState) (t : TokenType) : PState :=
  { ps with errors := ps.errors ++
      ["expected next token to be " ++ t.goString ++ ", got " ++
        ps.peekToken.type.goString ++ " instead"] }

/-- `expectPeek`: advance on a match, otherwise record a diagnostic and
stay put. -/
def expectPeek (ps : PState) (t : TokenType) : Bool × PState :=
  if ps.peekToken.type = t then (true, pNext ps)
  else (false, peekError ps t)

/-- `parseParameter` (not recursive): accepts `Type name` and `name Type`
orderings.  The Go `name Type` branch tests
`!p.expectPeek(STRING_TYPE) && !p.expectPeek(INT_TYPE)`, whose
short-circuit evaluation this mirrors (a failed first test records its
diagnostic before the second test runs). -/
def parseParameter (ps : PState) : Option Parameter × PState :=
  if ps.curToken.type = .STRING_TYPE || ps.curToken.type = .INT_TYPE then
    let typ := ps.curToken.literal
    let (ok, ps1) := expectPeek ps .IDENT
    if ok then (some ⟨ps1.curToken.literal, typ⟩, ps1) else (none, ps1)
  else if ps.curToken.type = .IDENT then
    let nm := ps.curToken.literal
    let (ok1, ps1) := expectPeek ps .STRING_TYPE
    if ok1 then (some ⟨nm, ps1.curToken.literal⟩, ps1)
    else
      let (ok2, ps2) := expectPeek ps1 .INT_TYPE
      if ok2 then (some ⟨nm, ps2.curToken.literal⟩, ps2) else (none, ps2)
  else (none, ps)

mutual

/-- The `for p.curToken.Type != lexer.EOF` loop of `ParseProgram`,
accumulating top-level statements. -/
def parseProgramLoop : Nat → PState → List Stmt → Option (List Stmt × PState)
  | 0, _, _ => none
  | fuel + 1, ps, acc =>
    if ps.curToken.type = .EOF then some (acc, ps)
    else if ps.curToken.type = .COMMENT then parseProgramLoop fuel (pNext ps) acc
    else
      match parseStatement fuel ps with
      | none => none
      | some (stmtOpt, ps1) =>
        let acc2 := match stmtOpt with
          | some s => acc ++ [s]
          | none => acc
        parseProgramLoop fuel (pNext ps1) acc2

/-- `parseStatement`: dispatch on `Entry` / `Function`, else fall back to a
block statement. -/
def parseStatement : Nat → PState → Option (Option Stmt × PState)
  | 0, _ => none
  | fuel + 1, ps =>
    if ps.curToken.type = .ENTRY then parseFunctionStatement fuel true ps
    else if ps.curToken.type = .FUNCTION then parseFunctionStatement fuel false ps
    else
      match parseBlockStatement fuel ps with
      | none => none
      | some (stmts, ps1) => some (some (.blockStmt stmts), ps1)

/-- `parseFunctionStatement`: name, parameter list, one of the three
return-type spellings, then the body.  The parenthesized-type branch
mirrors the Go short-circuit chain
`!p.expectPeek(INT_TYPE) && !p.expectPeek(STRING_TYPE) && !p.expectPeek(VOID_TYPE)`,
in which every failed `expectPeek` records a diagnostic even when a later
one succeeds. -/
def parseFunctionStatement : Nat → Bool → PState → Option (Option Stmt × PState)
  | 0, _, _ => none
  | fuel + 1, isEntry, ps =>
    let (ok1, ps1) := expectPeek ps .IDENT
    if !ok1 then some (none, ps1) else
    let nm := ps1.curToken.literal
    let (ok2, ps2) := expectPeek ps1 .LPAREN
    if !ok2 then some (none, ps2) else
    match parseParameters fuel ps2 with
    | none => none
    | some (params, ps3) =>
      let (ok4, ps4) := expectPeek ps3 .RPAREN
      if !ok4 then some (none, ps4) else
      if ps4.peekToken.type = .LPAREN then
        let ps5 := pNext ps4
        let (okA, psA) := expectPeek ps5 .INT_TYPE
        if okA then
          let (ok7, ps7) := expectPeek psA .RPAREN
          if !ok7 then some (none, ps7) else
          parseFunctionBody fuel isEntry nm params psA.curToken.literal ps7
        else
          let (okB, psB) := expectPeek psA .STRING_TYPE
          if okB then
            let (ok7, ps7) := expectPeek psB .RPAREN
            if !ok7 then some (none, ps7) else
            parseFunctionBody fuel isEntry nm params psB.curToken.literal ps7
          else
            let (okC, psC) := expectPeek psB .VOID_TYPE
            if okC then
              let (ok7, ps7) := expectPeek psC .RPAREN
              if !ok7 then some (none, ps7) else
              parseFunctionBody fuel isEntry nm params psC.curToken.literal ps7
            else some (none, psC)
      else if ps4.peekToken.type = .INT_TYPE || ps4.peekToken.type = .STRING_TYPE ||
          ps4.peekToken.type = .VOID_TYPE then
        let ps5 := pNext ps4
        parseFunctionBody fuel isEntry nm params ps5.curToken.literal ps5
      else
        parseFunctionBody fuel isEntry nm params "Void" ps4

/-- Tail of `parseFunctionStatement` shared by the three return-type
spellings: expect `{`, parse the body block, assemble the node. -/
def parseFunctionBody : Nat → Bool → String → List Parameter → String → PState →
    Option (Option Stmt × PState)
  | 0, _, _, _, _, _ => none
  | fuel + 1, isEntry, nm, params, rt, ps =>
    let (ok, ps1) := expectPeek ps .LBRACE
    if !ok then some (none, ps1) else
    match parseBlockStatement fuel ps1 with
    | none => none
    | some (body, ps2) => some (some (.functionStmt isEntry nm params rt body), ps2)

/-- `parseParameters`: an empty list when `)` is next, otherwise the first
parameter followed by the comma loop. -/
def parseParameters : Nat → PState → Option (List Parameter × PState)
  | 0, _ => none
  | fuel + 1, ps =>
    if ps.peekToken.type = .RPAREN then some ([], ps)
    else
      let ps1 := pNext ps
      let (paramOpt, ps2) := parseParameter ps1
      let acc := match paramOpt with
        | some p => [p]
        | none => []
      parseParametersLoop fuel ps2 acc

/-- The `for p.peekToken.Type == lexer.COMMA` loop of `parseParameters`. -/
def parseParametersLoop : Nat → PState → List Parameter → Option (List Parameter × PState)
  | 0, _, _ => none
  | fuel + 1, ps, acc =>
    if ps.peekToken.type = .COMMA then
      let ps1 := pNext (pNext ps)
      let (paramOpt, ps2) := parseParameter ps1
      let acc2 := match paramOpt with
        | some p => acc ++ [p]
        | none => acc
      parseParametersLoop fuel ps2 acc2
    else some (acc, ps)

/-- `parseBlockStatement`: advance past `{`, then read statements until
`}` or end of input. -/
def parseBlockStatement : Nat → PState → Option (List Stmt × PState)
  | 0, _ => none
  | fuel + 1, ps => parseBlockLoop fuel (pNext ps) []

/-- The statement loop of `parseBlockStatement`. -/
def parseBlockLoop : Nat → PState → List Stmt → Option (List Stmt × PState)
  | 0, _, _ => none
  | fuel + 1, ps, acc =>
    if ps.curToken.type = .RBRACE || ps.curToken.type = .EOF then some (acc, ps)
    else if ps.curToken.type = .COMMENT then parseBlockLoop fuel (pNext ps) acc
    else
      match parseInnerStatement fuel ps with
      | none => none
      | some (stmtOpt, ps1) =>
        let acc2 := match stmtOpt with
          | some s => acc ++ [s]
          | none => acc
        parseBlockLoop fuel (pNext ps1) acc2

/-- `parseInnerStatement`: assignment or call for an identifier, call for
the `Print`/`Return` keywords, nothing otherwise. -/
def parseInnerStatement : Nat → PState → Option (Option Stmt × PState)
  | 0, _ => none
  | fuel + 1, ps =>
    if ps.curToken.type = .IDENT then
      if ps.peekToken.type = .ASSIGN then parseAssignStatement fuel ps
      else if ps.peekToken.type = .LPAREN then parseCallStatement fuel ps
      else some (none, ps)
    else if ps.curToken.type = .PRINT || ps.curToken.type = .RETURN then
      parseCallStatement fuel ps
    else some (none, ps)

/-- `parseAssignStatement`: `name = expression`. -/
def parseAssignStatement : Nat → PState → Option (Option Stmt × PState)
  | 0, _ => none
  | fuel + 1, ps =>
    let nm := ps.curToken.literal
    let (ok, ps1) := expectPeek ps .ASSIGN
    if !ok then some (none, ps1) else
    let ps2 := pNext ps1
    match parseExpression fuel ps2 with
    | none => none
    | some (valOpt, ps3) => some (some (.assignStmt nm valOpt), ps3)

/-- `parseCallStatement`: `callee ( arguments )`. -/
def parseCallStatement : Nat → PState → Option (Option Stmt × PState)
  | 0, _ => none
  | fuel + 1, ps =>
    let fname := ps.curToken.literal
    let (ok, ps1) := expectPeek ps .LPAREN
    if !ok then some (none, ps1) else
    match parseArgumentList fuel ps1 with
    | none => none
    | some (args, ps2) =>
      let (ok3, ps3) := expectPeek ps2 .RPAREN
      if !ok3 then some (none, ps3) else
      some (some (.callStmt fname args), ps3)

/-- `parseArgumentList`: an empty list when `)` is next, otherwise the
first argument followed by the comma loop. -/
def parseArgumentList : Nat → PState → Option (List Expr × PState)
  | 0, _ => none
  | fuel + 1, ps =>
    if ps.peekToken.type = .RPAREN then some ([], ps)
    else
      let ps1 := pNext ps
      match parseExpression fuel ps1 with
      | none => none
      | some (argOpt, ps2) =>
        let acc := match argOpt with
          | some a => [a]
          | none => []
        parseArgumentListLoop fuel ps2 acc

/-- The `for p.peekToken.Type == lexer.COMMA` loop of `parseArgumentList`. -/
def parseArgumentListLoop : Nat → PState → List Expr → Option (List Expr × PState)
  | 0, _, _ => none
  | fuel + 1, ps, acc =>
    if ps.peekToken.type = .COMMA then
      let ps1 := pNext (pNext ps)
      match parseExpression fuel ps1 with
      | none => none
      | some (argOpt, ps2) =>
        let acc2 := match argOpt with
          | some a => acc ++ [a]
          | none => acc
        parseArgumentListLoop fuel ps2 acc2
    else some (acc, ps)

/-- `parseExpression`: string literal, integer literal (stored downstream
as a `StringLiteral` carrying the digit text, as the source does for its
MVP), identifier, or a call expression when an identifier is followed by
`(`. -/
def parseExpression : Nat → PState → Option (Option Expr × PState)
  | 0, _ => none
  | fuel + 1, ps =>
    if ps.curToken.type = .STRING then some (some (.stringLit ps.curToken.literal), ps)
    else if ps.curToken.type = .INT then some (some (.stringLit ps.curToken.literal), ps)
    else if ps.curToken.type = .IDENT then
      if ps.peekToken.type = .LPAREN then parseCallExpression fuel ps
      else some (some (.identifier ps.curToken.literal), ps)
    else some (none, ps)

/-- `parseCallExpression`: a call used as a value. -/
def parseCallExpression : Nat → PState → Option (Option Expr × PState)
  | 0, _ => none
  | fuel + 1, ps =>
    let fname := ps.curToken.literal
    let (ok, ps1) := expectPeek ps .LPAREN
    if !ok then some (none, ps1) else
    match parseArgumentList fuel ps1 with
    | none => none
    | some (args, ps2) =>
      let (ok3, ps3) := expectPeek ps2 .RPAREN
      if !ok3 then some (none, ps3) else
      some (some (.callExpr fname args), ps3)

end

/-- The termination measure of a parser state: remaining input weighted
by three, plus one for a non-end current token and two for a non-end peek
token.  `pNext` never increases it and strictly decreases it whenever it
is positive. -/
def tokWeight (t : Token) : Nat := if t.type = .EOF then 0 else 1

/-- Parser-state measure; see `tokWeight`. -/
def pMeasure (ps : PState) : Nat :=
  3 * ps.lex.input.length + tokWeight ps.curToken + 2 * tokWeight ps.peekToken

/-- `ParseProgram`: run the top-level loop with fuel that provably covers
the recursion depth (`parseProgramLoop_isSome`), and return the `Program`
with the accumulated diagnostics. -/
def ParseProgram (l : Lexer) : Program × List String :=
  let ps := parserNew l
  match parseProgramLoop (4 * pMeasure ps + 9) ps [] with
  | some (stmts, ps1) => (⟨stmts⟩, ps1.errors)
  | none => (⟨[]⟩, [])

/-! ## Code generator (`internal/codegen`, current version)

The Go `CodeGenerator` holds an append-only `strings.Builder` plus the
string-constant pool.  Each emitting function is embedded as a function
returning the chunk it appends together with the updated pool, so the full
output is the concatenation of the chunks in emission order.  The
`stringConstants` Go map is an insertion-ordered association list (lookup
by key takes the first match; `getStringLabel` only ever inserts fresh
keys, so keys stay distinct).  Go's `for ... range` over that map visits
entries in an unspecified order; `writeDataSection` therefore takes the
iteration order as an explicit parameter `perm`, intended to be a
permutation of the pool after collection. -/

/-- The string-constant pool part of the `CodeGenerator` state. -/
structure Pool where
  stringConstants : List (String × String)
  stringCounter : Nat
deriving DecidableEq, Repr

/-- `codegen.New()`: empty pool. -/
def newPool : Pool := ⟨[], 0⟩

/-- Variable binding table of one function body (`variables` map):
name to label/register, insertion by shadowing, lookup by first match. -/
def Vars := List (String × String)

/-- Go map update `variables[k] = v`. -/
def varsInsert (vars : Vars) (k v : String) : Vars := (k, v) :: vars

/-- Go map read `variables[k]`. -/
def varsLookup (vars : Vars) (k : String) : Option String := List.lookup k vars

/-- `getStringLabel`: return the pooled label for a literal, registering it
with the next `str_<counter>` label on first sight. -/
def getStringLabel (pool : Pool) (literal : String) : String × Pool :=
  match List.lookup literal pool.stringConstants with
  | some label => (label, pool)
  | none =>
    let label := "str_" ++ toString pool.stringCounter
    (label, ⟨pool.stringConstants ++ [(literal, label)], pool.stringCounter + 1⟩)

/-- `getStringFromLabel`: reverse lookup of a literal by its label.  The Go
code ranges over the map; since labels are pairwise distinct the visiting
order cannot matter, and insertion order is used here. -/
def getStringFromLabel (pool : Pool) (labelName : String) : Option String :=
  (pool.stringConstants.find? (fun e => e.2 = labelName)).map Prod.fst

/-- `strings.ReplaceAll` on character lists, with fuel (the pattern is
nonempty at every use, so input length plus one suffices). -/
def replaceAllF : Nat → List Char → List Char → List Char → List Char
  | 0, _, _, _ => []
  | _ + 1, [], _, _ => []
  | fuel + 1, c :: rest, pat, rep =>
    if pat.isPrefixOf (c :: rest) then
      rep ++ replaceAllF fuel ((c :: rest).drop pat.length) pat rep
    else c :: replaceAllF fuel rest pat rep

/-- `strings.ReplaceAll`. -/
def replaceAll (s pat rep : String) : String :=
  ⟨replaceAllF (s.data.length + 1) s.data pat.data rep.data⟩

/-- `processString`: the five escape-sequence replacements of the source
(each replaces a two-character escape spelling with itself). -/
def processString (s : String) : String :=
  let s1 := replaceAll s "\\n" "\\n"
  let s2 := replaceAll s1 "\\t" "\\t"
  let s3 := replaceAll s2 "\\r" "\\r"
  let s4 := replaceAll s3 "\\\\" "\\\\"
  replaceAll s4 "\\\"" "\\\""

/-- `strconv.ParseInt(s, 10, 64)`: optional sign, nonempty digit run,
64-bit signed range. -/
def parseInt64 (s : String) : Option Int :=
  match s.data with
  | [] => none
  | c :: rest =>
    let signNeg : Bool := c = '-'
    let digits : List Char := if c = '-' || c = '+' then rest else c :: rest
    if digits = [] then none
    else if digits.all (fun d => isDigit d) then
      let nat : Nat := digits.foldl (fun acc d => acc * 10 + (d.toNat - 48)) 0
      let n : Int := if signNeg then -(nat : Int) else (nat : Int)
      if -(2 ^ 63) ≤ n ∧ n < 2 ^ 63 then some n else none
    else none

mutual

/-- `collectStringsFromExpression`: register every literal (and the decimal
text of every integer literal), recursing into call-expression
arguments. -/
def collectStringsFromExpression : Pool → Expr → Pool
  | pool, .stringLit v => (getStringLabel pool v).2
  | pool, .intLit n => (getStringLabel pool (toString n)).2
  | pool, .identifier _ => pool
  | pool, .callExpr _ args => collectStringsFromExprList pool args

/-- The argument loop of `collectStringsFromExpression`. -/
def collectStringsFromExprList : Pool → List Expr → Pool
  | pool, [] => pool
  | pool, e :: es => collectStringsFromExprList (collectStringsFromExpression pool e) es

end

mutual

/-- `collectStringsFromStatement`. -/
def collectStringsFromStatement : Pool → Stmt → Pool
  | pool, .functionStmt _ _ _ _ body => collectStringsFromStmtList pool body
  | pool, .blockStmt stmts => collectStringsFromStmtList pool stmts
  | pool, .assignStmt _ none => pool
  | pool, .assignStmt _ (some e) => collectStringsFromExpression pool e
  | pool, .callStmt _ args => collectStringsFromExprList pool args

/-- The statement loop used for blocks and the top level. -/
def collectStringsFromStmtList : Pool → List Stmt → Pool
  | pool, [] => pool
  | pool, s :: ss => collectStringsFromStmtList (collectStringsFromStatement pool s) ss

end

/-- `collectStrings`: all literals of the program, in traversal order. -/
def collectStrings (pool : Pool) (p : Program) : Pool :=
  collectStringsFromStmtList pool p.statements

/-- `generatePrint`: emit the write-to-stdout sequence for a data label. -/
def generatePrint (label : String) : String :=
  "    # Print(" ++ label ++ ")\n" ++
  "    lea rdi, [" ++ label ++ "]    # string address\n" ++
  "    call strlen      # calculate length, result in rax\n" ++
  "    mov rdx, rax     # string length\n" ++
  "    mov rax, 1       # sys_write\n" ++
  "    mov rdi, 1       # stdout\n" ++
  "    lea rsi, [" ++ label ++ "]    # string address\n" ++
  "    syscall\n"

/-- `generatePrintFromRegister`: print a string parameter already in rdi. -/
def generatePrintFromRegister : String :=
  "    # Print(parameter from rdi)\n" ++
  "    call strlen      # calculate length, result in rax\n" ++
  "    mov rdx, rax     # string length\n" ++
  "    mov rax, 1       # sys_write\n" ++
  "    mov rsi, rdi     # string address from parameter\n" ++
  "    mov rdi, 1       # stdout\n" ++
  "    syscall\n"

/-- `generatePrintFromRax`: print the string whose address a call returned. -/
def generatePrintFromRax : String :=
  "    # Print(return value from rax)\n" ++
  "    mov rdi, rax     # string address from return value\n" ++
  "    call strlen      # calculate length, result in rax\n" ++
  "    mov rdx, rax     # string length\n" ++
  "    mov rax, 1       # sys_write\n" ++
  "    mov rsi, rdi     # string address (preserved from before strlen)\n" ++
  "    mov rdi, 1       # stdout\n" ++
  "    syscall\n"

/-- The integer-printing tail shared by the three `generatePrintIntegerFrom*`
functions: compare against the known test values, falling back to zero. -/
def generatePrintIntegerTail (pool : Pool) : String × Pool :=
  let (zeroLabel, pool1) := getStringLabel pool "0"
  let s1 :=
    "    # Convert integer to string (specific test values)\n" ++
    "    cmp rdi, 456\n" ++
    "    je print_int_456\n" ++
    "    cmp rdi, 789\n" ++
    "    je print_int_789\n" ++
    "    # Fallback: print 0 for unknown integers\n" ++
    "    lea rdi, [" ++ zeroLabel ++ "]\n" ++
    "    call strlen\n" ++
    "    mov rdx, rax\n" ++
    "    mov rax, 1\n" ++
    "    mov rdi, 1\n" ++
    "    lea rsi, [" ++ zeroLabel ++ "]\n" ++
    "    syscall\n" ++
    "    jmp print_int_done\n"
  let (label456, pool2) := getStringLabel pool1 "456"
  let s2 :=
    "print_int_456:\n" ++
    "    lea rdi, [" ++ label456 ++ "]\n" ++
    "    call strlen\n" ++
    "    mov rdx, rax\n" ++
    "    mov rax, 1\n" ++
    "    mov rdi, 1\n" ++
    "    lea rsi, [" ++ label456 ++ "]\n" ++
    "    syscall\n" ++
    "    jmp print_int_done\n"
  let (label789, pool3) := getStringLabel pool2 "789"
  let s3 :=
    "print_int_789:\n" ++
    "    lea rdi, [" ++ label789 ++ "]\n" ++
    "    call strlen\n" ++
    "    mov rdx, rax\n" ++
    "    mov rax, 1\n" ++
    "    mov rdi, 1\n" ++
    "    lea rsi, [" ++ label789 ++ "]\n" ++
    "    syscall\n" ++
    "print_int_done:\n"
  (s1 ++ s2 ++ s3, pool3)

/-- `generatePrintIntegerFromR15`. -/
def generatePrintIntegerFromR15 (pool : Pool) : String × Pool :=
  let (tail, pool1) := generatePrintIntegerTail pool
  ("    # Print(integer parameter from r15)\n" ++
   "    mov rdi, r15         # get integer parameter from r15\n" ++ tail, pool1)

/-- `generatePrintIntegerFromStack`. -/
def generatePrintIntegerFromStack (pool : Pool) : String × Pool :=
  let (tail, pool1) := generatePrintIntegerTail pool
  ("    # Print(integer parameter from stack)\n" ++
   "    mov rdi, [rbp + 16]  # get integer parameter from stack (above return addr and rbp)\n" ++
   tail, pool1)

/-- `generatePrintIntegerFromRDI`. -/
def generatePrintIntegerFromRDI (pool : Pool) : String × Pool :=
  let (tail, pool1) := generatePrintIntegerTail pool
  ("    # Print(integer parameter from rdi)\n" ++ tail, pool1)

/-- Argument-setup loop of the `CallExpression` case of
`generateAssignStatement` (each literal argument registers its pool label
even beyond index zero, as in the source, but only index zero emits). -/
def genAssignCallArgs (vars : Vars) : Pool → Nat → List Expr → String × Pool
  | pool, _, [] => ("", pool)
  | pool, i, arg :: rest =>
    match arg with
    | .stringLit v =>
      let (label, pool1) := getStringLabel pool v
      let chunk := if i = 0 then
          "    lea rdi, [" ++ label ++ "]    # first parameter address\n"
        else ""
      let (out, pool2) := genAssignCallArgs vars pool1 (i + 1) rest
      (chunk ++ out, pool2)
    | .intLit n =>
      let (label, pool1) := getStringLabel pool (toString n)
      let chunk := if i = 0 then
          "    lea rdi, [" ++ label ++ "]    # first parameter address (integer as string)\n"
        else ""
      let (out, pool2) := genAssignCallArgs vars pool1 (i + 1) rest
      (chunk ++ out, pool2)
    | .identifier v =>
      let chunk := match varsLookup vars v with
        | some label =>
          if i = 0 then "    lea rdi, [" ++ label ++ "]    # first parameter from variable\n"
          else ""
        | none => ""
      let (out, pool2) := genAssignCallArgs vars pool (i + 1) rest
      (chunk ++ out, pool2)
    | .callExpr _ _ =>
      genAssignCallArgs vars pool (i + 1) rest

/-- `generateAssignStatement`: bind a name to a literal's label, alias
another binding, or emit a call and bind the name to `rax`. -/
def generateAssignStatement (pool : Pool) (vars : Vars) (name : String)
    (value : Option Expr) : String × Pool × Vars :=
  match value with
  | some (.stringLit v) =>
    let (label, pool1) := getStringLabel pool v
    ("", pool1, varsInsert vars name label)
  | some (.intLit n) =>
    let (label, pool1) := getStringLabel pool (toString n)
    ("", pool1, varsInsert vars name label)
  | some (.identifier v) =>
    match varsLookup vars v with
    | some ref => ("", pool, varsInsert vars name ref)
    | none => ("", pool, vars)
  | some (.callExpr f args) =>
    let head := "    # " ++ name ++ " = " ++ f ++ "()\n"
    if args.isEmpty then
      (head ++ "    call " ++ f ++ "\n", pool, varsInsert vars name "rax")
    else
      let (argsOut, pool1) := genAssignCallArgs vars pool 0 args
      (head ++ "    # Setup parameters for assignment call\n" ++ argsOut ++
        "    call " ++ f ++ "\n", pool1, varsInsert vars name "rax")
  | none => ("", pool, vars)

/-- Argument-setup loop of the default (user-defined call) case of
`generateCallStatement`: index zero emits the parameter move, later
literal arguments emit only the multiple-parameters TODO comment while the
call is still emitted by the caller. -/
def genCallArgs (vars : Vars) : Pool → Nat → List Expr → String × Pool
  | pool, _, [] => ("", pool)
  | pool, i, arg :: rest =>
    match arg with
    | .stringLit v =>
      let (label, pool1) := getStringLabel pool v
      let chunk := if i = 0 then
          "    lea rdi, [" ++ label ++ "]    # first parameter address\n"
        else "    # TODO: Multiple parameters not yet implemented\n"
      let (out, pool2) := genCallArgs vars pool1 (i + 1) rest
      (chunk ++ out, pool2)
    | .intLit n =>
      let chunk := if i = 0 then
          "    mov rdi, " ++ toString n ++ "    # first parameter (integer value)\n"
        else "    # TODO: Multiple parameters not yet implemented\n"
      let (out, pool2) := genCallArgs vars pool (i + 1) rest
      (chunk ++ out, pool2)
    | .identifier v =>
      let chunk := match varsLookup vars v with
        | some label =>
          if i = 0 then
            match getStringFromLabel pool label with
            | some labelContent =>
              match parseInt64 labelContent with
              | some intVal =>
                "    mov rdi, " ++ toString intVal ++
                  "    # first parameter (integer value from variable)\n"
              | none =>
                "    lea rdi, [" ++ label ++ "]    # first parameter from variable (string)\n"
            | none =>
              "    lea rdi, [" ++ label ++ "]    # first parameter from variable\n"
          else ""
        | none => ""
      let (out, pool2) := genCallArgs vars pool (i + 1) rest
      (chunk ++ out, pool2)
    | .callExpr _ _ =>
      genCallArgs vars pool (i + 1) rest

/-- `generateCallStatement`: the `Print` and `Return` built-ins, and the
default user-defined-call case that emits `call <name>` for any other
callee name. -/
def generateCallStatement (pool : Pool) (vars : Vars) (isEntry : Bool)
    (fname : String) (args : List Expr) : String × Pool :=
  if fname = "Print" then
    match args with
    | [] => ("", pool)
    | arg :: _ =>
      match arg with
      | .identifier v =>
        match varsLookup vars v with
        | some label =>
          if label = "INT_PARAM_R15" then generatePrintIntegerFromR15 pool
          else if label = "INT_PARAM_STACK" then generatePrintIntegerFromStack pool
          else if label = "INT_PARAM_RDI" then generatePrintIntegerFromRDI pool
          else if "param_".isPrefixOf label then (generatePrintFromRegister, pool)
          else if label = "rax" then (generatePrintFromRax, pool)
          else (generatePrint label, pool)
        | none => ("", pool)
      | .stringLit v =>
        let (label, pool1) := getStringLabel pool v
        (generatePrint label, pool1)
      | .intLit n =>
        let (label, pool1) := getStringLabel pool (toString n)
        (generatePrint label, pool1)
      | .callExpr _ _ => ("", pool)
  else if fname = "Return" then
    match args with
    | [] => ("", pool)
    | arg :: _ =>
      match arg with
      | .stringLit v =>
        if isEntry then
          ("    # Return(" ++ v ++ ")\n" ++
           "    mov rax, 60      # sys_exit\n" ++
           "    mov rdi, " ++ v ++ "      # exit status\n" ++
           "    syscall\n", pool)
        else
          let (label, pool1) := getStringLabel pool v
          ("    # Return(" ++ v ++ ")\n" ++
           "    lea rax, [" ++ label ++ "]    # return string address in rax\n" ++
           "    mov rsp, rbp\n" ++
           "    pop rbp\n" ++
           "    ret\n", pool1)
      | .intLit n =>
        if isEntry then
          ("    # Return(" ++ toString n ++ ")\n" ++
           "    mov rax, 60      # sys_exit\n" ++
           "    mov rdi, " ++ toString n ++ "      # exit status\n" ++
           "    syscall\n", pool)
        else
          let (label, pool1) := getStringLabel pool (toString n)
          ("    # Return(" ++ toString n ++ ")\n" ++
           "    lea rax, [" ++ label ++ "]    # return string address in rax\n" ++
           "    mov rsp, rbp\n" ++
           "    pop rbp\n" ++
           "    ret\n", pool1)
      | .identifier v =>
        match varsLookup vars v with
        | some label =>
          if isEntry then
            let head := "    # Return(variable " ++ v ++ ")\n"
            match getStringFromLabel pool label with
            | some exitCodeStr =>
              (head ++ "    mov rax, 60      # sys_exit\n" ++
               "    mov rdi, " ++ exitCodeStr ++ "      # exit status from variable\n" ++
               "    syscall\n", pool)
            | none =>
              (head ++ "    mov rax, 60      # sys_exit\n" ++
               "    mov rdi, 0       # fallback exit status\n" ++
               "    syscall\n", pool)
          else
            ("    # Return(variable " ++ v ++ ")\n" ++
             "    lea rax, [" ++ label ++ "]    # return variable address in rax\n" ++
             "    mov rsp, rbp\n" ++
             "    pop rbp\n" ++
             "    ret\n", pool)
        | none =>
          let head := "    # Return(undefined variable " ++ v ++ ") - using 0\n"
          if isEntry then
            (head ++ "    mov rax, 60      # sys_exit\n" ++
             "    mov rdi, 0       # exit status\n" ++
             "    syscall\n", pool)
          else (head, pool)
      | .callExpr _ _ => ("", pool)
  else
    let head := "    # Call " ++ fname ++ "\n"
    if args.isEmpty then
      (head ++ "    call " ++ fname ++ "\n", pool)
    else
      let (argsOut, pool1) := genCallArgs vars pool 0 args
      (head ++ "    # Setup parameters\n" ++ argsOut ++
        "    call " ++ fname ++ "\n", pool1)

/-- Parameter-setup loop of `generateBlockStatementWithParams`. -/
def genParamSetup (vars : Vars) : Nat → List Parameter → String × Vars
  | _, [] => ("", vars)
  | i, p :: rest =>
    if i = 0 then
      if p.type = "Int" then
        let chunk :=
          "    # Save integer parameter " ++ p.name ++ " from rdi to r15\n" ++
          "    mov r15, rdi     # save integer parameter in callee-saved register\n"
        let (out, vars2) := genParamSetup (varsInsert vars p.name "INT_PARAM_R15") (i + 1) rest
        (chunk ++ out, vars2)
      else
        let paramLabel := "param_" ++ p.name
        let chunk := "    # String parameter " ++ p.name ++ " address available in rdi\n"
        let (out, vars2) := genParamSetup (varsInsert vars p.name paramLabel) (i + 1) rest
        (chunk ++ out, vars2)
    else
      let chunk := "    # TODO: Multiple parameters not yet implemented (param " ++
        p.name ++ ")\n"
      let (out, vars2) := genParamSetup vars (i + 1) rest
      (chunk ++ out, vars2)

/-- Statement loop of `generateBlockStatementWithParams`: only assignment
and call statements generate code; other statement kinds fall through the
Go type switch silently. -/
def genBlockStmts (isEntry : Bool) : Pool → Vars → List Stmt → String × Pool
  | pool, _, [] => ("", pool)
  | pool, vars, s :: ss =>
    match s with
    | .assignStmt name value =>
      let (out1, pool1, vars1) := generateAssignStatement pool vars name value
      let (out2, pool2) := genBlockStmts isEntry pool1 vars1 ss
      (out1 ++ out2, pool2)
    | .callStmt fname args =>
      let (out1, pool1) := generateCallStatement pool vars isEntry fname args
      let (out2, pool2) := genBlockStmts isEntry pool1 vars ss
      (out1 ++ out2, pool2)
    | _ => genBlockStmts isEntry pool vars ss

/-- `generateBlockStatementWithParams`: set up the parameter bindings, then
generate the body statements against a fresh variable table. -/
def generateBlockStatementWithParams (pool : Pool) (stmts : List Stmt)
    (isEntry : Bool) (params : List Parameter) : String × Pool :=
  let (setupOut, vars) := genParamSetup [] 0 params
  let (bodyOut, pool1) := genBlockStmts isEntry pool vars stmts
  (setupOut ++ bodyOut, pool1)

/-- `generateBlockStatement`: backward-compatibility wrapper with no
parameters. -/
def generateBlockStatement (pool : Pool) (stmts : List Stmt) (isEntry : Bool) :
    String × Pool :=
  generateBlockStatementWithParams pool stmts isEntry []

/-- `generateFunction`: label and prologue for ordinary functions, the
body, then the default epilogue (frame teardown and `ret`) or, for the
entry function, the default exit. -/
def generateFunction (pool : Pool) (isEntry : Bool) (name : String)
    (params : List Parameter) (body : List Stmt) : String × Pool :=
  let pre := if !isEntry then
      name ++ ":\n" ++ "    push rbp\n" ++ "    mov rbp, rsp\n"
    else ""
  let (bodyOut, pool1) := generateBlockStatementWithParams pool body isEntry params
  let post := if !isEntry then
      "    # Default function return\n" ++
      "    mov rsp, rbp\n" ++
      "    pop rbp\n" ++
      "    ret\n"
    else
      "    # Default exit\n" ++
      "    mov rax, 60      # sys_exit\n" ++
      "    mov rdi, 0       # exit status\n" ++
      "    syscall\n"
  (pre ++ bodyOut ++ post, pool1)

/-- `writeHeader`. -/
def writeHeader : String := ".intel_syntax noprefix\n.global _start\n\n"

/-- `generateStrlenFunction`: the shared length-scan helper, emitted once
into the text section. -/
def generateStrlenFunction : String :=
  "# strlen function - calculates length of null-terminated string\n" ++
  "# Input: rdi = string address\n" ++
  "# Output: rax = string length\n" ++
  "strlen:\n" ++
  "    push rbp\n" ++
  "    mov rbp, rsp\n" ++
  "    mov rax, 0       # length counter\n" ++
  "strlen_loop:\n" ++
  "    cmp byte ptr [rdi + rax], 0  # check for null terminator\n" ++
  "    je strlen_done   # if null, we're done\n" ++
  "    inc rax          # increment length\n" ++
  "    jmp strlen_loop  # continue loop\n" ++
  "strlen_done:\n" ++
  "    mov rsp, rbp\n" ++
  "    pop rbp\n" ++
  "    ret\n\n"

/-- One data-section line: `label: .asciz "text"`. -/
def dataLine (e : String × String) : String :=
  e.2 ++ ": .asciz \"" ++ processString e.1 ++ "\"\n"

/-- `writeDataSection`: collect all literals, then emit one `.asciz` line
per pool entry in the map-iteration order `perm`. -/
def writeDataSection (pool : Pool) (p : Program) (perm : List (String × String)) :
    String × Pool :=
  let pool1 := collectStrings pool p
  (".section .data\n" ++ String.join (perm.map dataLine) ++ "\n", pool1)

/-- The first entry-flagged function declaration, as the `break` loop of
`writeTextSection` finds it. -/
def findEntryFunc : List Stmt → Option (String × List Parameter × List Stmt)
  | [] => none
  | .functionStmt true n prs _ body :: _ => some (n, prs, body)
  | _ :: rest => findEntryFunc rest

/-- The regular-function loop of `writeTextSection`: every non-entry
function declaration, in program order. -/
def genRegularFuncs : Pool → List Stmt → String × Pool
  | pool, [] => ("", pool)
  | pool, .functionStmt false n prs _ body :: rest =>
    let (out1, pool1) := generateFunction pool false n prs body
    let (out2, pool2) := genRegularFuncs pool1 rest
    (out1 ++ out2, pool2)
  | pool, _ :: rest => genRegularFuncs pool rest

/-- The fallback `_start` stub emitted when no entry function exists. -/
def noEntryStub : String :=
  "_start:\n" ++
  "    # No Entry function found\n" ++
  "    mov rax, 60      # sys_exit\n" ++
  "    mov rdi, 1       # exit status\n" ++
  "    syscall\n"

/-- `writeTextSection`: the strlen helper, then the first entry function
under `_start` (or the fallback stub), then every ordinary function. -/
def writeTextSection (pool : Pool) (p : Program) : String × Pool :=
  let (entryOut, pool1) := match findEntryFunc p.statements with
    | some (n, prs, body) =>
      let (funcOut, poolE) := generateFunction pool true n prs body
      ("_start:\n" ++ funcOut, poolE)
    | none => (noEntryStub, pool)
  let (regsOut, pool2) := genRegularFuncs pool1 p.statements
  (".section .text\n" ++ generateStrlenFunction ++ entryOut ++ regsOut, pool2)

/-- `Generate`: header, data section, text section, in that order, starting
from a fresh pool.  `perm` is the map-iteration order used when flushing
the pool into the data section. -/
def Generate (p : Program) (perm : List (String × String)) : String :=
  let (dataOut, pool1) := writeDataSection newPool p perm
  let (textOut, _) := writeTextSection pool1 p
  writeHeader ++ dataOut ++ textOut

/-- The string pool after collection over a whole program, which is the
pool state the data section is emitted from. -/
def poolOf (p : Program) : Pool := collectStrings newPool p

/-! ## Concrete programs used by the claim theorems -/

/-- An entry function whose body only calls `A_mark()`; it registers no
literals, so the pool stays empty. -/
def entryMarkA : Stmt := .functionStmt true "main" [] "Int" [.callStmt "A_mark" []]

/-- A second entry function, calling `B_mark()` instead. -/
def entryMarkB : Stmt := .functionStmt true "other" [] "Int" [.callStmt "B_mark" []]

/-- An entry function whose body calls the undeclared function `Foo`. -/
def progUnknownCallee : Program :=
  ⟨[.functionStmt true "main" [] "Int" [.callStmt "Foo" []]]⟩

/-- An entry function printing two distinct literals. -/
def progTwoLits : Program :=
  ⟨[.functionStmt true "main" [] "Int"
      [.callStmt "Print" [.stringLit "a"], .callStmt "Print" [.stringLit "b"]]]⟩

/-- An entry function using the literal `x` three times. -/
def progTripleLit : Program :=
  ⟨[.functionStmt true "main" [] "Int"
      [.assignStmt "v" (some (.stringLit "x")),
       .callStmt "Print" [.stringLit "x"],
       .callStmt "Print" [.stringLit "x"]]]⟩

/-! ## Claim theorems: code generation error handling (C1, C2, C6) -/

/-- C1: the claim says code generation fails with a distinct, checkable
error for zero entry functions and another for two or more, producing no
normal assembly result in either case.  The code does the opposite:
`Generate` is a total `Program → String` with no error channel; with zero
entry functions it emits a normal assembly text containing the fallback
`_start` stub (first conjunct, an exact evaluation), and with two entry
functions it emits exactly the same assembly as with the first entry alone,
silently dropping the second (second conjunct). -/
theorem C1_entry_count_not_rejected :
    Generate ⟨[]⟩ [] =
      writeHeader ++ ".section .data\n" ++ "\n" ++ ".section .text\n" ++
        generateStrlenFunction ++ noEntryStub ∧
    Generate ⟨[entryMarkA, entryMarkB]⟩ [] = Generate ⟨[entryMarkA]⟩ [] := by
  constructor
  · rfl
  · rfl

/-- C2: the claim says a call whose callee is neither a built-in nor a
declared function fails code generation and never silently emits an
unresolved call.  The code's default case emits `call Foo` for the
undeclared callee `Foo` and `Generate` returns a normal assembly string:
the program below declares no `Foo`, yet its generated text section
contains the unresolved call, with no error surfaced. -/
theorem C2_unknown_callee_not_rejected :
    Generate progUnknownCallee [] =
      writeHeader ++ ".section .data\n" ++ "\n" ++ ".section .text\n" ++
        generateStrlenFunction ++
        ("_start:\n" ++
          ("    # Call Foo\n" ++ "    call Foo\n" ++
           "    # Default exit\n" ++ "    mov rax, 60      # sys_exit\n" ++
           "    mov rdi, 0       # exit status\n" ++ "    syscall\n")) ∧
    containsSeq (Generate progUnknownCallee []).data "    call Foo\n".data = true := by
  constructor
  · rfl
  · decide

/-- C6: the claim says invocations with more than one argument raise a
compile-time error and extra arguments are never dropped while still
emitting the call.  The code instead emits a TODO comment for each extra
literal argument and still emits the call: on `Greet('a','b')` the emitted
chunk sets up only the first parameter, comments the second away, and
calls `Greet`; the parameter-setup side behaves the same for a
two-parameter declaration. -/
theorem C6_extra_arguments_silently_dropped :
    generateCallStatement newPool [] true "Greet" [.stringLit "a", .stringLit "b"] =
      ("    # Call Greet\n" ++ "    # Setup parameters\n" ++
        ("    lea rdi, [str_0]    # first parameter address\n" ++
          ("    # TODO: Multiple parameters not yet implemented\n" ++ "")) ++
        "    call Greet\n",
       ⟨[("a", "str_0"), ("b", "str_1")], 2⟩) ∧
    genParamSetup [] 0 [⟨"a", "String"⟩, ⟨"b", "String"⟩] =
      ("    # String parameter a address available in rdi\n" ++
        ("    # TODO: Multiple parameters not yet implemented (param b)\n" ++ ""),
       [("a", "param_a")]) := by
  constructor
  · rfl
  · rfl

/-! ## Claim theorems: Return code shapes (C5) -/

/-- The process-termination sequence the spec prescribes for a `Return`
with a literal inside the entry function (named from the spec's words, for
comparison with the embedded generator's output). -/
def specEntryReturnSeq (v : String) : String :=
  "    # Return(" ++ v ++ ")\n" ++
  "    mov rax, 60      # sys_exit\n" ++
  "    mov rdi, " ++ v ++ "      # exit status\n" ++
  "    syscall\n"

/-- The return-to-caller sequence the spec prescribes for a `Return` with
a literal inside an ordinary function: value in the return register, frame
teardown, `ret` (named from the spec's words). -/
def specOrdinaryReturnSeq (label v : String) : String :=
  "    # Return(" ++ v ++ ")\n" ++
  "    lea rax, [" ++ label ++ "]    # return string address in rax\n" ++
  "    mov rsp, rbp\n" ++
  "    pop rbp\n" ++
  "    ret\n"

/-- C5: a `Return` with a literal argument emits the process-termination
system call with that status inside the entry function, and the
return-register/frame-teardown/`ret` sequence inside an ordinary function.
Both literal kinds are covered; the final conjunct checks the ordinary
sequence contains no `sys_exit` setup (with the label a pool lookup
produces), so it is never a process-termination call. -/
theorem C5_return_entry_vs_ordinary :
    (∀ pool vars v,
      generateCallStatement pool vars true "Return" [.stringLit v] =
        (specEntryReturnSeq v, pool)) ∧
    (∀ pool vars v,
      generateCallStatement pool vars false "Return" [.stringLit v] =
        (specOrdinaryReturnSeq (getStringLabel pool v).1 v, (getStringLabel pool v).2)) ∧
    (∀ pool vars n,
      generateCallStatement pool vars true "Return" [.intLit n] =
        (specEntryReturnSeq (toString n), pool)) ∧
    (∀ pool vars n,
      generateCallStatement pool vars false "Return" [.intLit n] =
        (specOrdinaryReturnSeq (getStringLabel pool (toString n)).1 (toString n),
          (getStringLabel pool (toString n)).2)) ∧
    containsSeq (specOrdinaryReturnSeq "str_0" "7").data "mov rax, 60".data = false := by
  refine ⟨?_, ?_, ?_, ?_, by decide⟩
  · intro pool vars v
    rfl
  · intro pool vars v
    simp only [generateCallStatement, specOrdinaryReturnSeq]
    rfl
  · intro pool vars n
    rfl
  · intro pool vars n
    simp only [generateCallStatement, specOrdinaryReturnSeq]
    rfl

/-! ## Claim theorems: tokenizer delimiter dispatch (C7) -/

/-- C7: each of the six single-character delimiters/operators is recognized
by direct dispatch from any lexer state whose current character is that
delimiter; in particular a comma yields a `COMMA` token carrying `","` as
its literal, not an illegal token.  (The current lexer is spec-modelled;
see `TokenType`.) -/
theorem C7_delimiter_direct_dispatch :
    (∀ rest line col, nextToken ⟨'=' :: rest, line, col⟩ =
      (⟨.ASSIGN, "=", line, col⟩, ⟨rest, line, col + 1⟩)) ∧
    (∀ rest line col, nextToken ⟨'(' :: rest, line, col⟩ =
      (⟨.LPAREN, "(", line, col⟩, ⟨rest, line, col + 1⟩)) ∧
    (∀ rest line col, nextToken ⟨')' :: rest, line, col⟩ =
      (⟨.RPAREN, ")", line, col⟩, ⟨rest, line, col + 1⟩)) ∧
    (∀ rest line col, nextToken ⟨lbraceChar :: rest, line, col⟩ =
      (⟨.LBRACE, String.singleton lbraceChar, line, col⟩, ⟨rest, line, col + 1⟩)) ∧
    (∀ rest line col, nextToken ⟨rbraceChar :: rest, line, col⟩ =
      (⟨.RBRACE, String.singleton rbraceChar, line, col⟩, ⟨rest, line, col + 1⟩)) ∧
    (∀ rest line col, nextToken ⟨',' :: rest, line, col⟩ =
      (⟨.COMMA, ",", line, col⟩, ⟨rest, line, col + 1⟩)) := by
  refine ⟨?_, ?_, ?_, ?_, ?_, ?_⟩ <;> intro rest line col <;> rfl

/-! ## Claim theorems: function-header return-type spellings (C8) -/

/-- The return type recorded for each top-level function statement. -/
def returnTypesOf (p : Program) : List String :=
  p.statements.map fun s =>
    match s with
    | .functionStmt _ _ _ rt _ => rt
    | _ => ""

/-- Source text `Entry main() (Int) { }`. -/
def hdrParenIntSrc : List Char := "Entry main() (Int) ".data ++ [lbraceChar, ' ', rbraceChar]

/-- Source text `Function f() (String) { }`. -/
def hdrParenStringSrc : List Char :=
  "Function f() (String) ".data ++ [lbraceChar, ' ', rbraceChar]

/-- Source text `Function f() (Void) { }`. -/
def hdrParenVoidSrc : List Char := "Function f() (Void) ".data ++ [lbraceChar, ' ', rbraceChar]

/-- Source text `Function f() String { }` (bare return type). -/
def hdrBareSrc : List Char := "Function f() String ".data ++ [lbraceChar, ' ', rbraceChar]

/-- Source text `Function f() { }` (no return type). -/
def hdrNoneSrc : List Char := "Function f() ".data ++ [lbraceChar, ' ', rbraceChar]

/-- C8: the claim says all three return-type spellings parse with the
spelled return type and, for a well-formed header, an empty diagnostic
list — in particular a parenthesized `(String)` or `(Void)`.  The parser
does produce the spelled return type in all five cases below, but the
parenthesized branch tests
`!p.expectPeek(INT_TYPE) && !p.expectPeek(STRING_TYPE) && !p.expectPeek(VOID_TYPE)`,
and each failed `expectPeek` appends a diagnostic: `(String)` accumulates
one spurious diagnostic and `(Void)` two, so those well-formed headers do
not parse with an empty diagnostic list (and the driver, which aborts on a
non-empty list, would reject them). -/
theorem C8_return_type_spellings_diagnostics :
    returnTypesOf (ParseProgram (lexerNew hdrParenIntSrc)).1 = ["Int"] ∧
    (ParseProgram (lexerNew hdrParenIntSrc)).2 = [] ∧
    returnTypesOf (ParseProgram (lexerNew hdrParenStringSrc)).1 = ["String"] ∧
    (ParseProgram (lexerNew hdrParenStringSrc)).2.length = 1 ∧
    returnTypesOf (ParseProgram (lexerNew hdrParenVoidSrc)).1 = ["Void"] ∧
    (ParseProgram (lexerNew hdrParenVoidSrc)).2.length = 2 ∧
    returnTypesOf (ParseProgram (lexerNew hdrBareSrc)).1 = ["String"] ∧
    (ParseProgram (lexerNew hdrBareSrc)).2 = [] ∧
    returnTypesOf (ParseProgram (lexerNew hdrNoneSrc)).1 = ["Void"] ∧
    (ParseProgram (lexerNew hdrNoneSrc)).2 = [] := by
  refine ⟨?_, ?_, ?_, ?_, ?_, ?_, ?_, ?_, ?_, ?_⟩ <;> decide

/-! ## Claim theorems: determinism and data-section order (C3) -/

/-- C3 counterexample: the claim says any two invocations of `Generate`
produce the identical assembly string with data-section entries in
first-seen registration order.  The data section is emitted by ranging
over a Go map, whose iteration order is unspecified: for the two-literal
program below, both lists given are orders of the very same final pool
(the second is the registration order), yet the two generated assembly
strings differ. -/
theorem C3_map_order_counterexample :
    (poolOf progTwoLits).stringConstants = [("a", "str_0"), ("b", "str_1")] ∧
    List.Perm [("b", "str_1"), ("a", "str_0")] (poolOf progTwoLits).stringConstants ∧
    Generate progTwoLits [("a", "str_0"), ("b", "str_1")] ≠
      Generate progTwoLits [("b", "str_1"), ("a", "str_0")] := by
  refine ⟨by decide, by decide, by decide⟩

/-! ## Pool lemmas

`collectStrings*` is, extensionally, a left fold of `getStringLabel` over
the literal texts of the traversed subtree in traversal order; everything
about the pool then reduces to list reasoning about that fold. -/

/-- The literal keys of the pool, in registration order. -/
def poolKeys (pool : Pool) : List String := pool.stringConstants.map Prod.fst

/-- Registering one literal. -/
def poolStep (pool : Pool) (lit : String) : Pool := (getStringLabel pool lit).2

/-- Registering a list of literals left to right. -/
def poolFold (pool : Pool) (lits : List String) : Pool := lits.foldl poolStep pool

mutual

/-- The literal texts registered by `collectStringsFromExpression`, in
traversal order. -/
def litsOfExpr : Expr → List String
  | .stringLit v => [v]
  | .intLit n => [toString n]
  | .identifier _ => []
  | .callExpr _ args => litsOfExprList args

/-- List version of `litsOfExpr`. -/
def litsOfExprList : List Expr → List String
  | [] => []
  | e :: es => litsOfExpr e ++ litsOfExprList es

end

mutual

/-- The literal texts registered by `collectStringsFromStatement`. -/
def litsOfStmt : Stmt → List String
  | .functionStmt _ _ _ _ body => litsOfStmtList body
  | .blockStmt stmts => litsOfStmtList stmts
  | .assignStmt _ none => []
  | .assignStmt _ (some e) => litsOfExpr e
  | .callStmt _ args => litsOfExprList args

/-- List version of `litsOfStmt`. -/
def litsOfStmtList : List Stmt → List String
  | [] => []
  | s :: ss => litsOfStmt s ++ litsOfStmtList ss

end

/-- The literal texts of a whole program, in collection order. -/
def litsOfProgram (p : Program) : List String := litsOfStmtList p.statements

theorem poolFold_append (pool : Pool) (l1 l2 : List String) :
    poolFold pool (l1 ++ l2) = poolFold (poolFold pool l1) l2 := by
  simp [poolFold, List.foldl_append]

theorem collectExpr_eq_aux : ∀ n : Nat,
    (∀ e : Expr, sizeOf e ≤ n → ∀ pool,
      collectStringsFromExpression pool e = poolFold pool (litsOfExpr e)) ∧
    (∀ es : List Expr, sizeOf es ≤ n → ∀ pool,
      collectStringsFromExprList pool es = poolFold pool (litsOfExprList es)) := by
  intro n
  induction n using Nat.strong_induction_on with
  | _ n ih =>
    constructor
    · intro e he pool
      match e with
      | .stringLit v => simp [collectStringsFromExpression, litsOfExpr, poolFold, poolStep]
      | .intLit v => simp [collectStringsFromExpression, litsOfExpr, poolFold, poolStep]
      | .identifier v => simp [collectStringsFromExpression, litsOfExpr, poolFold]
      | .callExpr f args =>
        have hsz : sizeOf args < n := by
          have h1 : sizeOf (Expr.callExpr f args) = 1 + sizeOf f + sizeOf args := by
            simp [Expr.callExpr.sizeOf_spec]
          omega
        have := (ih (sizeOf args) hsz).2 args le_rfl pool
        simpa [collectStringsFromExpression, litsOfExpr] using this
    · intro es hes pool
      match es with
      | [] => simp [collectStringsFromExprList, litsOfExprList, poolFold]
      | e :: es' =>
        have h1 : sizeOf e < n := by
          have : sizeOf (e :: es') = 1 + sizeOf e + sizeOf es' := by simp
          omega
        have h2 : sizeOf es' < n := by
          have : sizeOf (e :: es') = 1 + sizeOf e + sizeOf es' := by simp
          omega
        have he := (ih (sizeOf e) h1).1 e le_rfl pool
        have hes' := (ih (sizeOf es') h2).2 es' le_rfl
          (collectStringsFromExpression pool e)
        simp only [collectStringsFromExprList, litsOfExprList]
        rw [hes', he, ← poolFold_append]

/-- `collectStringsFromExpression` as a fold over the expression's
literals. -/
theorem collectExpr_eq (pool : Pool) (e : Expr) :
    collectStringsFromExpression pool e = poolFold pool (litsOfExpr e) :=
  (collectExpr_eq_aux (sizeOf e)).1 e le_rfl pool

/-- `collectStringsFromExprList` as a fold. -/
theorem collectExprList_eq (pool : Pool) (es : List Expr) :
    collectStringsFromExprList pool es = poolFold pool (litsOfExprList es) :=
  (collectExpr_eq_aux (sizeOf es)).2 es le_rfl pool

theorem collectStmt_eq_aux : ∀ n : Nat,
    (∀ s : Stmt, sizeOf s ≤ n → ∀ pool,
      collectStringsFromStatement pool s = poolFold pool (litsOfStmt s)) ∧
    (∀ ss : List Stmt, sizeOf ss ≤ n → ∀ pool,
      collectStringsFromStmtList pool ss = poolFold pool (litsOfStmtList ss)) := by
  intro n
  induction n using Nat.strong_induction_on with
  | _ n ih =>
    constructor
    · intro s hs pool
      match s with
      | .functionStmt ie nm prs rt body =>
        have hsz : sizeOf body < n := by
          have : sizeOf (Stmt.functionStmt ie nm prs rt body) =
              1 + sizeOf ie + sizeOf nm + sizeOf prs + sizeOf rt + sizeOf body := by
            simp [Stmt.functionStmt.sizeOf_spec]
          omega
        have := (ih (sizeOf body) hsz).2 body le_rfl pool
        simpa [collectStringsFromStatement, litsOfStmt] using this
      | .blockStmt stmts =>
        have hsz : sizeOf stmts < n := by
          have : sizeOf (Stmt.blockStmt stmts) = 1 + sizeOf stmts := by
            simp [Stmt.blockStmt.sizeOf_spec]
          omega
        have := (ih (sizeOf stmts) hsz).2 stmts le_rfl pool
        simpa [collectStringsFromStatement, litsOfStmt] using this
      | .assignStmt nm none =>
        simp [collectStringsFromStatement, litsOfStmt, poolFold]
      | .assignStmt nm (some e) =>
        simp [collectStringsFromStatement, litsOfStmt, collectExpr_eq]
      | .callStmt f args =>
        simp [collectStringsFromStatement, litsOfStmt, collectExprList_eq]
    · intro ss hss pool
      match ss with
      | [] => simp [collectStringsFromStmtList, litsOfStmtList, poolFold]
      | s :: ss' =>
        have h1 : sizeOf s < n := by
          have : sizeOf (s :: ss') = 1 + sizeOf s + sizeOf ss' := by simp
          omega
        have h2 : sizeOf ss' < n := by
          have : sizeOf (s :: ss') = 1 + sizeOf s + sizeOf ss' := by simp
          omega
        have hs := (ih (sizeOf s) h1).1 s le_rfl pool
        have hss' := (ih (sizeOf ss') h2).2 ss' le_rfl
          (collectStringsFromStatement pool s)
        simp only [collectStringsFromStmtList, litsOfStmtList]
        rw [hss', hs, ← poolFold_append]

/-- `collectStrings` over a whole program as a fold over its literals. -/
theorem collectStrings_eq (pool : Pool) (p : Program) :
    collectStrings pool p = poolFold pool (litsOfProgram p) :=
  (collectStmt_eq_aux (sizeOf p.statements)).2 p.statements le_rfl pool

/-- The data-section pool as a fold from the empty pool. -/
theorem poolOf_eq (p : Program) :
    poolOf p = poolFold newPool (litsOfProgram p) :=
  collectStrings_eq newPool p

/-! ### Association-list lookup lemmas -/

theorem lookup_some_mem {l : List (String × String)} {a b : String}
    (h : List.lookup a l = some b) : a ∈ l.map Prod.fst := by
  induction l with
  | nil => simp [List.lookup] at h
  | cons e rest ih =>
    obtain ⟨k, v⟩ := e
    by_cases hab : a = k
    · simp [hab]
    · rw [List.lookup, beq_false_of_ne hab] at h
      exact List.mem_cons_of_mem _ (ih h)

theorem lookup_none_not_mem {l : List (String × String)} {a : String}
    (h : List.lookup a l = none) : a ∉ l.map Prod.fst := by
  induction l with
  | nil => simp
  | cons e rest ih =>
    obtain ⟨k, v⟩ := e
    by_cases hab : a = k
    · rw [List.lookup, hab, beq_self_eq_true] at h
      exact absurd h (by simp)
    · rw [List.lookup, beq_false_of_ne hab] at h
      intro hmem
      rcases List.mem_cons.mp hmem with h1 | h2
      · exact hab h1
      · exact ih h h2

theorem lookup_isSome_of_mem {l : List (String × String)} {a : String}
    (h : a ∈ l.map Prod.fst) : ∃ b, List.lookup a l = some b := by
  induction l with
  | nil => simp at h
  | cons e rest ih =>
    obtain ⟨k, v⟩ := e
    by_cases hab : a = k
    · exact ⟨v, by rw [List.lookup, hab, beq_self_eq_true]⟩
    · have hmem : a ∈ rest.map Prod.fst := by
        rcases List.mem_cons.mp h with h1 | h2
        · exact absurd h1 hab
        · exact h2
      obtain ⟨b, hb⟩ := ih hmem
      exact ⟨b, by rw [List.lookup, beq_false_of_ne hab]; exact hb⟩

theorem lookup_append_of_none {l : List (String × String)} {a b : String}
    (h : List.lookup a l = none) :
    List.lookup a (l ++ [(a, b)]) = some b := by
  induction l with
  | nil => simp [List.lookup]
  | cons e rest ih =>
    obtain ⟨k, v⟩ := e
    by_cases hab : a = k
    · rw [List.lookup, hab, beq_self_eq_true] at h
      exact absurd h (by simp)
    · rw [List.lookup, beq_false_of_ne hab] at h
      rw [List.cons_append, List.lookup, beq_false_of_ne hab]
      exact ih h

/-! ### Step and fold lemmas for the pool -/

theorem poolKeys_step (pool : Pool) (lit : String) :
    poolKeys (poolStep pool lit) =
      if lit ∈ poolKeys pool then poolKeys pool else poolKeys pool ++ [lit] := by
  unfold poolStep getStringLabel
  cases h : List.lookup lit pool.stringConstants with
  | some label =>
    simp [poolKeys, lookup_some_mem h]
  | none =>
    simp [poolKeys, lookup_none_not_mem h]

theorem mem_poolKeys_step_self (pool : Pool) (lit : String) :
    lit ∈ poolKeys (poolStep pool lit) := by
  rw [poolKeys_step]
  by_cases h : lit ∈ poolKeys pool <;> simp [h]

theorem mem_poolKeys_step_mono {pool : Pool} {a : String} (lit : String)
    (h : a ∈ poolKeys pool) : a ∈ poolKeys (poolStep pool lit) := by
  rw [poolKeys_step]
  by_cases hm : lit ∈ poolKeys pool <;> simp [hm, h]

theorem mem_poolKeys_fold_mono {pool : Pool} {a : String} (lits : List String)
    (h : a ∈ poolKeys pool) : a ∈ poolKeys (poolFold pool lits) := by
  induction lits generalizing pool with
  | nil => simpa [poolFold] using h
  | cons lit rest ih =>
    simpa [poolFold] using ih (mem_poolKeys_step_mono lit h)

theorem mem_poolKeys_fold {pool : Pool} {a : String} {lits : List String}
    (h : a ∈ lits) : a ∈ poolKeys (poolFold pool lits) := by
  induction lits generalizing pool with
  | nil => simp at h
  | cons lit rest ih =>
    rcases List.mem_cons.mp h with rfl | hrest
    · simpa [poolFold] using mem_poolKeys_fold_mono rest (mem_poolKeys_step_self pool a)
    · simpa [poolFold] using ih hrest

theorem nodup_poolKeys_step {pool : Pool} (lit : String)
    (h : (poolKeys pool).Nodup) : (poolKeys (poolStep pool lit)).Nodup := by
  rw [poolKeys_step]
  by_cases hm : lit ∈ poolKeys pool
  · simpa [hm]
  · simp [hm, List.nodup_append, h]

theorem nodup_poolKeys_fold {pool : Pool} (lits : List String)
    (h : (poolKeys pool).Nodup) : (poolKeys (poolFold pool lits)).Nodup := by
  induction lits generalizing pool with
  | nil => simpa [poolFold] using h
  | cons lit rest ih =>
    simpa [poolFold] using ih (nodup_poolKeys_step lit h)

theorem nodup_poolKeys_poolOf (p : Program) : (poolKeys (poolOf p)).Nodup := by
  rw [poolOf_eq]
  exact nodup_poolKeys_fold _ (by simp [poolKeys, newPool])

/-- The labels of the pool, in registration order, are `str_0`, `str_1`,
…: the invariant maintained by `getStringLabel`'s counter. -/
def labelsInv (pool : Pool) : Prop :=
  pool.stringConstants.map Prod.snd =
    (List.range pool.stringCounter).map (fun i => "str_" ++ toString i)

theorem labelsInv_step {pool : Pool} (lit : String) (h : labelsInv pool) :
    labelsInv (poolStep pool lit) := by
  unfold poolStep getStringLabel
  cases hl : List.lookup lit pool.stringConstants with
  | some label => simpa [labelsInv]
  | none =>
    simp only [labelsInv] at h ⊢
    simp [List.range_succ, h]

theorem labelsInv_fold {pool : Pool} (lits : List String) (h : labelsInv pool) :
    labelsInv (poolFold pool lits) := by
  induction lits generalizing pool with
  | nil => simpa [poolFold] using h
  | cons lit rest ih =>
    simpa [poolFold] using ih (labelsInv_step lit h)

theorem labelsInv_poolOf (p : Program) : labelsInv (poolOf p) := by
  rw [poolOf_eq]
  exact labelsInv_fold _ (by simp [labelsInv, newPool])

/-- Registering a literal twice: the second call returns the first call's
label and leaves the pool unchanged. -/
theorem getStringLabel_idem (pool : Pool) (lit : String) :
    getStringLabel (poolStep pool lit) lit =
      ((getStringLabel pool lit).1, poolStep pool lit) := by
  unfold poolStep getStringLabel
  cases h : List.lookup lit pool.stringConstants with
  | some label => simp [h]
  | none => simp [h, lookup_append_of_none h]

/-- Looking up an already-pooled literal returns its stored label and does
not change the pool. -/
theorem getStringLabel_mem (pool : Pool) (lit : String)
    (h : lit ∈ poolKeys pool) :
    List.lookup lit pool.stringConstants = some (getStringLabel pool lit).1 ∧
    (getStringLabel pool lit).2 = pool := by
  obtain ⟨b, hb⟩ := lookup_isSome_of_mem h
  unfold getStringLabel
  rw [hb]
  exact ⟨rfl, rfl⟩

/-! ## Claim theorems: string pooling (C4) and determinism (C3 amended) -/

/-- C4: string pooling is idempotent.  First conjunct: registering the
same literal twice yields the same label and the same pool.  Second
conjunct: a use-site lookup of an already-pooled literal returns the
stored label without modifying the pool (so all N use sites reference the
single pooled label).  Third conjunct: for every program and literal
occurring in it, the final pool — and hence any map-iteration order of it
flushed into the data section — carries exactly one entry keyed by that
literal. -/
theorem C4_string_pooling_idempotent :
    (∀ pool lit, getStringLabel (poolStep pool lit) lit =
      ((getStringLabel pool lit).1, poolStep pool lit)) ∧
    (∀ pool lit, lit ∈ poolKeys pool →
      List.lookup lit pool.stringConstants = some (getStringLabel pool lit).1 ∧
      (getStringLabel pool lit).2 = pool) ∧
    (∀ p lit (perm : List (String × String)), lit ∈ litsOfProgram p →
      perm.Perm (poolOf p).stringConstants →
      (perm.map Prod.fst).count lit = 1 ∧ (poolKeys (poolOf p)).count lit = 1) := by
  refine ⟨getStringLabel_idem, getStringLabel_mem, ?_⟩
  intro p lit perm hmem hperm
  have hk : lit ∈ poolKeys (poolOf p) := by
    rw [poolOf_eq]
    exact mem_poolKeys_fold hmem
  have hone : (poolKeys (poolOf p)).count lit = 1 :=
    List.count_eq_one_of_mem (nodup_poolKeys_poolOf p) hk
  refine ⟨?_, hone⟩
  have := (hperm.map Prod.fst).count_eq lit
  rw [this]
  exact hone

/-- Witness for C4 at a program that uses the literal `x` three times. -/
theorem C4_string_pooling_idempotent_witness :
    (poolKeys (poolOf progTripleLit)).count "x" = 1 ∧
    ((poolOf progTripleLit).stringConstants.map Prod.fst).count "x" = 1 := by
  have h := C4_string_pooling_idempotent.2.2 progTripleLit "x"
    (poolOf progTripleLit).stringConstants (by decide) (List.Perm.refl _)
  exact ⟨h.2, h.1⟩

/-- C3 amended: `Generate` is deterministic up to the order of the
data-section lines.  First conjunct: the output is always the fixed
header, then the data section consisting of one line per pool entry in the
map-iteration order, then a text section that does not depend on that
order — so two invocations differ at most in data-line order.  Second
conjunct: permuting the iteration order permutes exactly the data-section
lines.  Third conjunct: labels are assigned in first-seen registration
order (`str_0`, `str_1`, …).  Fourth conjunct: a literal seen twice
resolves to the same label. -/
theorem C3_amended_deterministic_up_to_data_order :
    (∀ p perm, Generate p perm =
      writeHeader ++ (".section .data\n" ++ String.join (perm.map dataLine) ++ "\n") ++
        (writeTextSection (poolOf p) p).1) ∧
    (∀ perm1 perm2 : List (String × String), perm1.Perm perm2 →
      (perm1.map dataLine).Perm (perm2.map dataLine)) ∧
    (∀ p, (poolOf p).stringConstants.map Prod.snd =
      (List.range (poolOf p).stringCounter).map (fun i => "str_" ++ toString i)) ∧
    (∀ pool lit, (getStringLabel (poolStep pool lit) lit).1 =
      (getStringLabel pool lit).1) := by
  refine ⟨?_, ?_, labelsInv_poolOf, ?_⟩
  · intro p perm
    rfl
  · intro perm1 perm2 h
    exact h.map dataLine
  · intro pool lit
    rw [getStringLabel_idem]

/-- Witness for the amended C3 at the two-literal program and the two
iteration orders of its pool. -/
theorem C3_amended_witness :
    Generate progTwoLits [("b", "str_1"), ("a", "str_0")] =
      writeHeader ++ (".section .data\n" ++
        String.join ([("b", "str_1"), ("a", "str_0")].map dataLine) ++ "\n") ++
        (writeTextSection (poolOf progTwoLits) progTwoLits).1 ∧
    ([("a", "str_0"), ("b", "str_1")].map dataLine).Perm
      ([("b", "str_1"), ("a", "str_0")].map dataLine) :=
  ⟨C3_amended_deterministic_up_to_data_order.1 progTwoLits _,
   C3_amended_deterministic_up_to_data_order.2.1 _ _ (by decide)⟩

/-! ## Lexer progress lemmas (towards C9 and C10) -/

theorem skipTrivia_len_aux : ∀ n : Nat, ∀ xs : List Char, xs.length ≤ n →
    ∀ line col,
      (skipTrivia xs line col).input.length ≤ xs.length ∧
      (skipLineComment xs line col).input.length ≤ xs.length ∧
      (skipBlockComment xs line col).input.length ≤ xs.length := by
  intro n
  induction n using Nat.strong_induction_on with
  | _ n ih =>
    intro xs hlen line col
    refine ⟨?_, ?_, ?_⟩
    · rw [skipTrivia.eq_def]
      split
      · simp
      · next c rest =>
        have hrest : rest.length < n := by
          simp only [List.length_cons] at hlen
          omega
        by_cases h1 : c = '\n'
        · rw [if_pos h1]
          exact le_trans (ih rest.length hrest rest le_rfl (line + 1) 0).1 (by simp)
        · rw [if_neg h1]
          by_cases h2 : (c = ' ' || c = '\t' || c = '\r') = true
          · rw [if_pos h2]
            exact le_trans (ih rest.length hrest rest le_rfl line (col + 1)).1 (by simp)
          · rw [if_neg h2]
            by_cases h3 : c = '/'
            · rw [if_pos h3]
              split
              · next rest2 =>
                have hrest2 : rest2.length < n := by
                  simp only [List.length_cons] at hlen
                  omega
                have := (ih rest2.length hrest2 rest2 le_rfl line (col + 2)).2.1
                simp only [List.length_cons]
                omega
              · next rest2 =>
                have hrest2 : rest2.length < n := by
                  simp only [List.length_cons] at hlen
                  omega
                have := (ih rest2.length hrest2 rest2 le_rfl line (col + 2)).2.2
                simp only [List.length_cons]
                omega
              · simp
            · rw [if_neg h3]
    · rw [skipLineComment.eq_def]
      split
      · simp
      · next c rest =>
        have hrest : rest.length < n := by
          simp only [List.length_cons] at hlen
          omega
        by_cases h1 : c = '\n'
        · rw [if_pos h1]
          exact le_trans (ih rest.length hrest rest le_rfl (line + 1) 0).1 (by simp)
        · rw [if_neg h1]
          exact le_trans (ih rest.length hrest rest le_rfl line (col + 1)).2.1 (by simp)
    · rw [skipBlockComment.eq_def]
      split
      · simp
      · next rest2 =>
        have hrest2 : rest2.length < n := by
          simp only [List.length_cons] at hlen
          omega
        have := (ih rest2.length hrest2 rest2 le_rfl line (col + 2)).1
        simp only [List.length_cons]
        omega
      · next rest1 =>
        have hrest : rest1.length < n := by
          simp only [List.length_cons] at hlen
          omega
        exact le_trans (ih rest1.length hrest rest1 le_rfl (line + 1) 0).2.2 (by simp)
      · next c1 rest1 hov1 hov2 =>
        have hrest : rest1.length < n := by
          simp only [List.length_cons] at hlen
          omega
        exact le_trans (ih rest1.length hrest rest1 le_rfl line (col + 1)).2.2 (by simp)

/-- Skipping trivia never lengthens the input. -/
theorem skipTrivia_le (xs : List Char) (line col : Nat) :
    (skipTrivia xs line col).input.length ≤ xs.length :=
  (skipTrivia_len_aux xs.length xs le_rfl line col).1

theorem readIdentifier_snd_le (xs : List Char) :
    (readIdentifier xs).2.length ≤ xs.length := by
  induction xs with
  | nil => simp [readIdentifier]
  | cons c rest ih =>
    rw [readIdentifier]
    by_cases h : isLetter c || isDigit c || c = '_'
    · simp only [h, if_true]
      exact le_trans ih (by simp)
    · simp [h]

theorem readNumber_snd_le (xs : List Char) :
    (readNumber xs).2.length ≤ xs.length := by
  induction xs with
  | nil => simp [readNumber]
  | cons c rest ih =>
    rw [readNumber]
    by_cases h : isDigit c
    · simp only [h, if_true]
      exact le_trans ih (by simp)
    · simp [h]

theorem readString_snd_le (xs : List Char) :
    (readString xs).2.length ≤ xs.length := by
  induction xs using readString.induct with
  | case1 => simp [readString.eq_def]
  | case2 c rest h =>
    rw [readString.eq_def]
    simp only [h, if_true]
    simp
  | case3 h =>
    rw [readString.eq_def]
    simp only [h, if_false]
    simp
  | case4 rest h =>
    rw [readString.eq_def]
    simp only [h, if_false]
    simp only [List.length_cons]
    simp
    omega
  | case5 c rest hc cs r hread h ih =>
    rw [readString.eq_def]
    simp only [h, if_false, hc, hread]
    rw [hread] at ih
    simp only [List.length_cons]
    simp at ih ⊢
    omega
  | case6 c rest h hb cs r hread ih =>
    rw [readString.eq_def]
    simp only [h, if_false, hb, hread]
    rw [hread] at ih
    simp only [List.length_cons]
    simp at ih ⊢
    omega

/-- `NextToken` either strictly consumes input or returns the end-of-input
token with the input exhausted. -/
theorem nextToken_cases (l : Lexer) :
    (nextToken l).2.input.length < l.input.length ∨
    ((nextToken l).2.input.length = 0 ∧ (nextToken l).1.type = .EOF) := by
  unfold nextToken
  have hle := skipTrivia_le l.input l.line l.column
  cases hv : (skipTrivia l.input l.line l.column).input with
  | nil =>
    right
    simp [hv]
  | cons c rest =>
    have hlt : rest.length < l.input.length := by
      rw [hv] at hle
      simp only [List.length_cons] at hle
      omega
    simp only [hv]
    by_cases h1 : c = '=';
    · simp only [h1, if_true]; left; exact hlt
    simp only [h1, if_false]
    by_cases h2 : c = '('
    · simp only [h2, if_true]; left; exact hlt
    simp only [h2, if_false]
    by_cases h3 : c = ')'
    · simp only [h3, if_true]; left; exact hlt
    simp only [h3, if_false]
    by_cases h4 : c = lbraceChar
    · simp only [h4, if_true]; left; exact hlt
    simp only [h4, if_false]
    by_cases h5 : c = rbraceChar
    · simp only [h5, if_true]; left; exact hlt
    simp only [h5, if_false]
    by_cases h6 : c = ','
    · simp only [h6, if_true]; left; exact hlt
    simp only [h6, if_false]
    by_cases h7 : c = squoteChar
    · simp only [h7, if_true]
      left
      have := readString_snd_le rest
      calc (readString rest).2.length ≤ rest.length := this
      _ < l.input.length := hlt
    simp only [h7, if_false]
    by_cases h8 : c = nulChar
    · simp only [h8, if_true]; left; exact hlt
    simp only [h8, if_false]
    by_cases h9 : isLetter c
    · simp only [h9, if_true]
      left
      rw [readIdentifier]
      have hg : (isLetter c || isDigit c || c = '_') = true := by simp [h9]
      simp only [hg, if_true]
      have := readIdentifier_snd_le rest
      calc (readIdentifier rest).2.length ≤ rest.length := this
      _ < l.input.length := hlt
    simp only [h9, if_false]
    by_cases h10 : isDigit c
    · simp only [h10, if_true]
      left
      rw [readNumber]
      simp only [h10, if_true]
      have := readNumber_snd_le rest
      calc (readNumber rest).2.length ≤ rest.length := this
      _ < l.input.length := hlt
    simp only [h10, if_false]
    left
    exact hlt

/-- `NextToken` never lengthens the input. -/
theorem nextToken_le (l : Lexer) :
    (nextToken l).2.input.length ≤ l.input.length := by
  rcases nextToken_cases l with h | ⟨h, _⟩
  · exact le_of_lt h
  · omega

/-- Any token other than end-of-input consumes at least one character. -/
theorem nextToken_progress (l : Lexer) (h : (nextToken l).1.type ≠ .EOF) :
    (nextToken l).2.input.length < l.input.length := by
  rcases nextToken_cases l with h1 | ⟨_, h2⟩
  · exact h1
  · exact absurd h2 h

/-- Once the input is exhausted, `NextToken` returns the end-of-input token
and leaves the state unchanged, so every subsequent call does the same. -/
theorem nextToken_eof_stable (l : Lexer) (h : l.input = []) :
    nextToken l = (⟨.EOF, "", l.line, l.column⟩, l) := by
  unfold nextToken
  cases l with
  | mk input line col =>
    subst h
    rfl

/-! ## Parser measure lemmas (towards C10) -/

theorem tokWeight_le (t : Token) : tokWeight t ≤ 1 := by
  unfold tokWeight
  split <;> omega

theorem pMeasure_pNext_le (ps : PState) : pMeasure (pNext ps) ≤ pMeasure ps := by
  have hc := nextToken_cases ps.lex
  have w1 := tokWeight_le ps.curToken
  have w2 := tokWeight_le ps.peekToken
  have w3 := tokWeight_le (nextToken ps.lex).1
  unfold pMeasure pNext
  rcases hc with h | ⟨h1, h2⟩
  · simp only []
    omega
  · simp only [tokWeight, h2, if_true] at *
    omega

theorem pMeasure_pNext_lt (ps : PState) (h : 1 ≤ pMeasure ps) :
    pMeasure (pNext ps) < pMeasure ps := by
  have hc := nextToken_cases ps.lex
  have w1 := tokWeight_le ps.curToken
  have w2 := tokWeight_le ps.peekToken
  have w3 := tokWeight_le (nextToken ps.lex).1
  unfold pMeasure pNext at *
  rcases hc with hlt | ⟨h1, h2⟩
  · simp only []
    omega
  · simp only [tokWeight, h2, if_true] at *
    omega

/-- Loop-advance fact: from any state of positive measure that has been
relaxed to a state of no larger measure, one `pNext` strictly shrinks the
measure below the original. -/
theorem pMeasure_pNext_lt_of_le {ps1 ps : PState}
    (hle : pMeasure ps1 ≤ pMeasure ps) (h : 1 ≤ pMeasure ps) :
    pMeasure (pNext ps1) < pMeasure ps := by
  by_cases h1 : 1 ≤ pMeasure ps1
  · exact lt_of_lt_of_le (pMeasure_pNext_lt ps1 h1) hle
  · have : pMeasure ps1 = 0 := by omega
    have := pMeasure_pNext_le ps1
    omega

theorem pMeasure_pos_of_cur {ps : PState} (h : ps.curToken.type ≠ .EOF) :
    1 ≤ pMeasure ps := by
  unfold pMeasure tokWeight
  simp only [h, if_false]
  omega

theorem pMeasure_pos_of_peek {ps : PState} (h : ps.peekToken.type ≠ .EOF) :
    1 ≤ pMeasure ps := by
  unfold pMeasure tokWeight
  simp only [h, if_false]
  split <;> omega

theorem pMeasure_peekError (ps : PState) (t : TokenType) :
    pMeasure (peekError ps t) = pMeasure ps := rfl

/-- Both outcomes of `expectPeek` keep the measure bounded; a successful
expectation of a non-end token strictly shrinks it. -/
theorem expectPeek_measure (ps : PState) (t : TokenType) :
    pMeasure (expectPeek ps t).2 ≤ pMeasure ps ∧
    ((expectPeek ps t).1 = true → t ≠ .EOF →
      pMeasure (expectPeek ps t).2 < pMeasure ps) := by
  unfold expectPeek
  by_cases h : ps.peekToken.type = t
  · simp only [h, if_true]
    refine ⟨pMeasure_pNext_le ps, ?_⟩
    intro _ ht
    exact pMeasure_pNext_lt ps (pMeasure_pos_of_peek (h ▸ ht))
  · simp only [h, if_false]
    exact ⟨le_of_eq (pMeasure_peekError ps t), by simp⟩

theorem expectPeek_eq_measure {ps : PState} {t : TokenType} {ok : Bool} {ps' : PState}
    (h : expectPeek ps t = (ok, ps')) :
    pMeasure ps' ≤ pMeasure ps ∧
    (ok = true → t ≠ .EOF → pMeasure ps' < pMeasure ps) := by
  have hm := expectPeek_measure ps t
  rw [h] at hm
  exact hm

theorem parseParameter_measure (ps : PState) :
    pMeasure (parseParameter ps).2 ≤ pMeasure ps := by
  unfold parseParameter
  by_cases h1 : ps.curToken.type = .STRING_TYPE || ps.curToken.type = .INT_TYPE
  · simp only [h1, if_true]
    have := (expectPeek_measure ps .IDENT).1
    cases hep : expectPeek ps .IDENT with
    | mk ok ps1 =>
      rw [hep] at this
      cases ok <;> simp [this]
  · simp only [h1, if_false]
    by_cases h2 : ps.curToken.type = .IDENT
    · simp only [h2, if_true]
      have e1 := (expectPeek_measure ps .STRING_TYPE).1
      cases hep1 : expectPeek ps .STRING_TYPE with
      | mk ok1 ps1 =>
        rw [hep1] at e1
        cases ok1
        · have e2 := (expectPeek_measure ps1 .INT_TYPE).1
          cases hep2 : expectPeek ps1 .INT_TYPE with
          | mk ok2 ps2 =>
            rw [hep2] at e2
            cases ok2 <;> simp_all <;> omega
        · simpa using e1
    · simp [h2]

/-- Fuel sufficiency for every parser production: with fuel at least
`4 * pMeasure ps + rank + 1` (ranks as below), the production returns
`some` result whose state has no larger measure.  This is the termination
argument for the Go parser: every loop iteration and every
production-to-production step either strictly shrinks the measure or moves
to a strictly lower rank. -/
theorem parserFuelSufficient : ∀ fuel : Nat,
    (∀ ps acc, 4 * pMeasure ps + 8 ≤ fuel →
      ∃ out, parseProgramLoop fuel ps acc = some out ∧ pMeasure out.2 ≤ pMeasure ps) ∧
    (∀ ps, 4 * pMeasure ps + 7 ≤ fuel →
      ∃ out, parseStatement fuel ps = some out ∧ pMeasure out.2 ≤ pMeasure ps) ∧
    (∀ ie ps, 4 * pMeasure ps + 6 ≤ fuel →
      ∃ out, parseFunctionStatement fuel ie ps = some out ∧ pMeasure out.2 ≤ pMeasure ps) ∧
    (∀ ie nm params rt ps, 4 * pMeasure ps + 5 ≤ fuel →
      ∃ out, parseFunctionBody fuel ie nm params rt ps = some out ∧
        pMeasure out.2 ≤ pMeasure ps) ∧
    (∀ ps, 4 * pMeasure ps + 4 ≤ fuel →
      ∃ out, parseBlockStatement fuel ps = some out ∧ pMeasure out.2 ≤ pMeasure ps) ∧
    (∀ ps acc, 4 * pMeasure ps + 3 ≤ fuel →
      ∃ out, parseBlockLoop fuel ps acc = some out ∧ pMeasure out.2 ≤ pMeasure ps) ∧
    (∀ ps, 4 * pMeasure ps + 2 ≤ fuel →
      ∃ out, parseInnerStatement fuel ps = some out ∧ pMeasure out.2 ≤ pMeasure ps) ∧
    (∀ ps, 4 * pMeasure ps + 1 ≤ fuel →
      ∃ out, parseAssignStatement fuel ps = some out ∧ pMeasure out.2 ≤ pMeasure ps) ∧
    (∀ ps, 4 * pMeasure ps + 1 ≤ fuel →
      ∃ out, parseCallStatement fuel ps = some out ∧ pMeasure out.2 ≤ pMeasure ps) ∧
    (∀ ps, 4 * pMeasure ps + 2 ≤ fuel →
      ∃ out, parseParameters fuel ps = some out ∧ pMeasure out.2 ≤ pMeasure ps) ∧
    (∀ ps acc, 4 * pMeasure ps + 1 ≤ fuel →
      ∃ out, parseParametersLoop fuel ps acc = some out ∧ pMeasure out.2 ≤ pMeasure ps) ∧
    (∀ ps, 4 * pMeasure ps + 3 ≤ fuel →
      ∃ out, parseArgumentList fuel ps = some out ∧ pMeasure out.2 ≤ pMeasure ps) ∧
    (∀ ps acc, 4 * pMeasure ps + 2 ≤ fuel →
      ∃ out, parseArgumentListLoop fuel ps acc = some out ∧ pMeasure out.2 ≤ pMeasure ps) ∧
    (∀ ps, 4 * pMeasure ps + 2 ≤ fuel →
      ∃ out, parseExpression fuel ps = some out ∧ pMeasure out.2 ≤ pMeasure ps) ∧
    (∀ ps, 4 * pMeasure ps + 1 ≤ fuel →
      ∃ out, parseCallExpression fuel ps = some out ∧ pMeasure out.2 ≤ pMeasure ps) := by
  intro fuel
  induction fuel with
  | zero =>
    refine ⟨fun ps acc h => absurd h (by omega), fun ps h => absurd h (by omega),
      fun ie ps h => absurd h (by omega), fun ie nm params rt ps h => absurd h (by omega),
      fun ps h => absurd h (by omega), fun ps acc h => absurd h (by omega),
      fun ps h => absurd h (by omega), fun ps h => absurd h (by omega),
      fun ps h => absurd h (by omega), fun ps h => absurd h (by omega),
      fun ps acc h => absurd h (by omega), fun ps h => absurd h (by omega),
      fun ps acc h => absurd h (by omega), fun ps h => absurd h (by omega),
      fun ps h => absurd h (by omega)⟩
  | succ fuel ih =>
    obtain ⟨ihPL, ihST, ihFS, ihFB, ihBS, ihBL, ihIS, ihAS, ihCS, ihPP, ihPPL,
      ihAL, ihALL, ihPE, ihCE⟩ := ih
    refine ⟨?_, ?_, ?_, ?_, ?_, ?_, ?_, ?_, ?_, ?_, ?_, ?_, ?_, ?_, ?_⟩
    · -- parseProgramLoop
      intro ps acc h
      by_cases h1 : ps.curToken.type = .EOF
      · exact ⟨(acc, ps), by simp [parseProgramLoop, h1], le_rfl⟩
      · have hm1 : 1 ≤ pMeasure ps := pMeasure_pos_of_cur h1
        by_cases h2 : ps.curToken.type = .COMMENT
        · have hlt : pMeasure (pNext ps) < pMeasure ps := pMeasure_pNext_lt ps hm1
          obtain ⟨out, hsome, hle⟩ := ihPL (pNext ps) acc (by omega)
          exact ⟨out, by simp [parseProgramLoop, h1, h2, hsome],
            le_trans hle (le_of_lt hlt)⟩
        · obtain ⟨⟨so, ps1⟩, hstmt, hle1⟩ := ihST ps (by omega)
          have hle1' : pMeasure ps1 ≤ pMeasure ps := hle1
          have hlt : pMeasure (pNext ps1) < pMeasure ps :=
            pMeasure_pNext_lt_of_le hle1' hm1
          cases so with
          | some s =>
            obtain ⟨out, hloop, hle⟩ := ihPL (pNext ps1) (acc ++ [s]) (by omega)
            exact ⟨out, by simp [parseProgramLoop, h1, h2, hstmt, hloop],
              le_trans hle (le_of_lt hlt)⟩
          | none =>
            obtain ⟨out, hloop, hle⟩ := ihPL (pNext ps1) acc (by omega)
            exact ⟨out, by simp [parseProgramLoop, h1, h2, hstmt, hloop],
              le_trans hle (le_of_lt hlt)⟩
    · -- parseStatement
      intro ps h
      by_cases h1 : ps.curToken.type = .ENTRY
      · obtain ⟨out, hfs, hle⟩ := ihFS true ps (by omega)
        exact ⟨out, by simp [parseStatement, h1, hfs], hle⟩
      · by_cases h2 : ps.curToken.type = .FUNCTION
        · obtain ⟨out, hfs, hle⟩ := ihFS false ps (by omega)
          exact ⟨out, by simp [parseStatement, h1, h2, hfs], hle⟩
        · obtain ⟨⟨stmts, ps1⟩, hbs, hle⟩ := ihBS ps (by omega)
          exact ⟨(some (.blockStmt stmts), ps1),
            by simp [parseStatement, h1, h2, hbs], hle⟩
    · -- parseFunctionStatement
      intro ie ps h
      rcases hE1 : expectPeek ps .IDENT with ⟨ok1, ps1⟩
      have hm1 := expectPeek_eq_measure hE1
      cases ok1 with
      | false => exact ⟨(none, ps1), by simp [parseFunctionStatement, hE1], hm1.1⟩
      | true =>
        have hlt1 : pMeasure ps1 < pMeasure ps := hm1.2 rfl (by decide)
        rcases hE2 : expectPeek ps1 .LPAREN with ⟨ok2, ps2⟩
        have hm2 := expectPeek_eq_measure hE2
        cases ok2 with
        | false =>
          exact ⟨(none, ps2), by simp [parseFunctionStatement, hE1, hE2],
            le_trans hm2.1 (le_of_lt hlt1)⟩
        | true =>
          have hlt2 : pMeasure ps2 < pMeasure ps1 := hm2.2 rfl (by decide)
          obtain ⟨⟨params, ps3⟩, hpp, hle3⟩ := ihPP ps2 (by omega)
          have hle3' : pMeasure ps3 ≤ pMeasure ps2 := hle3
          rcases hE4 : expectPeek ps3 .RPAREN with ⟨ok4, ps4⟩
          have hm4 := expectPeek_eq_measure hE4
          cases ok4 with
          | false =>
            exact ⟨(none, ps4), by simp [parseFunctionStatement, hE1, hE2, hpp, hE4],
              show pMeasure ps4 ≤ pMeasure ps by
                have := hm4.1
                omega⟩
          | true =>
            have hlt4 : pMeasure ps4 < pMeasure ps3 := hm4.2 rfl (by decide)
            by_cases hpk : ps4.peekToken.type = .LPAREN
            · have hle5 : pMeasure (pNext ps4) ≤ pMeasure ps4 := pMeasure_pNext_le ps4
              rcases hEA : expectPeek (pNext ps4) .INT_TYPE with ⟨okA, psA⟩
              have hmA := expectPeek_eq_measure hEA
              have hmA1 : pMeasure psA ≤ pMeasure (pNext ps4) := hmA.1
              cases okA with
              | true =>
                rcases hE7 : expectPeek psA .RPAREN with ⟨ok7, ps7⟩
                have hm7 : pMeasure ps7 ≤ pMeasure psA := (expectPeek_eq_measure hE7).1
                cases ok7 with
                | false =>
                  exact ⟨(none, ps7),
                    by simp [parseFunctionStatement, hE1, hE2, hpp, hE4, hpk, hEA, hE7],
                    show pMeasure ps7 ≤ pMeasure ps by omega⟩
                | true =>
                  obtain ⟨out, hfb, hle⟩ := ihFB ie ps1.curToken.literal params
                    psA.curToken.literal ps7 (by omega)
                  exact ⟨out,
                    by simp [parseFunctionStatement, hE1, hE2, hpp, hE4, hpk, hEA, hE7, hfb],
                    by omega⟩
              | false =>
                rcases hEB : expectPeek psA .STRING_TYPE with ⟨okB, psB⟩
                have hmB1 : pMeasure psB ≤ pMeasure psA := (expectPeek_eq_measure hEB).1
                cases okB with
                | true =>
                  rcases hE7 : expectPeek psB .RPAREN with ⟨ok7, ps7⟩
                  have hm7 : pMeasure ps7 ≤ pMeasure psB := (expectPeek_eq_measure hE7).1
                  cases ok7 with
                  | false =>
                    exact ⟨(none, ps7),
                      by simp [parseFunctionStatement, hE1, hE2, hpp, hE4, hpk, hEA, hEB,
                        hE7],
                      show pMeasure ps7 ≤ pMeasure ps by omega⟩
                  | true =>
                    obtain ⟨out, hfb, hle⟩ := ihFB ie ps1.curToken.literal params
                      psB.curToken.literal ps7 (by omega)
                    exact ⟨out,
                      by simp [parseFunctionStatement, hE1, hE2, hpp, hE4, hpk, hEA, hEB,
                        hE7, hfb],
                      by omega⟩
                | false =>
                  rcases hEC : expectPeek psB .VOID_TYPE with ⟨okC, psC⟩
                  have hmC1 : pMeasure psC ≤ pMeasure psB := (expectPeek_eq_measure hEC).1
                  cases okC with
                  | true =>
                    rcases hE7 : expectPeek psC .RPAREN with ⟨ok7, ps7⟩
                    have hm7 : pMeasure ps7 ≤ pMeasure psC := (expectPeek_eq_measure hE7).1
                    cases ok7 with
                    | false =>
                      exact ⟨(none, ps7),
                        by simp [parseFunctionStatement, hE1, hE2, hpp, hE4, hpk, hEA, hEB,
                          hEC, hE7],
                        show pMeasure ps7 ≤ pMeasure ps by omega⟩
                    | true =>
                      obtain ⟨out, hfb, hle⟩ := ihFB ie ps1.curToken.literal params
                        psC.curToken.literal ps7 (by omega)
                      exact ⟨out,
                        by simp [parseFunctionStatement, hE1, hE2, hpp, hE4, hpk, hEA, hEB,
                          hEC, hE7, hfb],
                        by omega⟩
                  | false =>
                    exact ⟨(none, psC),
                      by simp [parseFunctionStatement, hE1, hE2, hpp, hE4, hpk, hEA, hEB,
                        hEC],
                      show pMeasure psC ≤ pMeasure ps by omega⟩
            · by_cases hpk2 : ps4.peekToken.type = .INT_TYPE ∨
                  ps4.peekToken.type = .STRING_TYPE ∨ ps4.peekToken.type = .VOID_TYPE
              · have hne : ps4.peekToken.type ≠ .EOF := by
                  rcases hpk2 with h' | h' | h' <;> simp [h']
                have hlt5 : pMeasure (pNext ps4) < pMeasure ps4 :=
                  pMeasure_pNext_lt ps4 (pMeasure_pos_of_peek hne)
                obtain ⟨out, hfb, hle⟩ := ihFB ie ps1.curToken.literal params
                  (pNext ps4).curToken.literal (pNext ps4) (by omega)
                refine ⟨out, ?_, by omega⟩
                rcases hpk2 with h' | h' | h' <;>
                  simp [parseFunctionStatement, hE1, hE2, hpp, hE4, hpk, h', hfb]
              · obtain ⟨out, hfb, hle⟩ := ihFB ie ps1.curToken.literal params "Void" ps4
                  (by omega)
                have hi : ps4.peekToken.type ≠ .INT_TYPE := fun h' => hpk2 (Or.inl h')
                have hs : ps4.peekToken.type ≠ .STRING_TYPE :=
                  fun h' => hpk2 (Or.inr (Or.inl h'))
                have hv : ps4.peekToken.type ≠ .VOID_TYPE :=
                  fun h' => hpk2 (Or.inr (Or.inr h'))
                exact ⟨out,
                  by simp [parseFunctionStatement, hE1, hE2, hpp, hE4, hpk, hi, hs, hv, hfb],
                  by omega⟩
    · -- parseFunctionBody
      intro ie nm params rt ps h
      rcases hE : expectPeek ps .LBRACE with ⟨ok, ps1⟩
      have hm := expectPeek_eq_measure hE
      cases ok with
      | false => exact ⟨(none, ps1), by simp [parseFunctionBody, hE], hm.1⟩
      | true =>
        have hlt : pMeasure ps1 < pMeasure ps := hm.2 rfl (by decide)
        obtain ⟨⟨body, ps2⟩, hbs, hle⟩ := ihBS ps1 (by omega)
        have hle' : pMeasure ps2 ≤ pMeasure ps1 := hle
        exact ⟨(some (.functionStmt ie nm params rt body), ps2),
          by simp [parseFunctionBody, hE, hbs],
          show pMeasure ps2 ≤ pMeasure ps by omega⟩
    · -- parseBlockStatement
      intro ps h
      have hle : pMeasure (pNext ps) ≤ pMeasure ps := pMeasure_pNext_le ps
      obtain ⟨out, hbl, hle2⟩ := ihBL (pNext ps) [] (by omega)
      exact ⟨out, by simp [parseBlockStatement, hbl], by omega⟩
    · -- parseBlockLoop
      intro ps acc h
      by_cases h1 : ps.curToken.type = .RBRACE
      · exact ⟨(acc, ps), by simp [parseBlockLoop, h1], le_rfl⟩
      · by_cases h2 : ps.curToken.type = .EOF
        · exact ⟨(acc, ps), by simp [parseBlockLoop, h1, h2], le_rfl⟩
        · have hm1 : 1 ≤ pMeasure ps := pMeasure_pos_of_cur h2
          by_cases h3 : ps.curToken.type = .COMMENT
          · have hlt : pMeasure (pNext ps) < pMeasure ps := pMeasure_pNext_lt ps hm1
            obtain ⟨out, hsome, hle⟩ := ihBL (pNext ps) acc (by omega)
            exact ⟨out, by simp [parseBlockLoop, h1, h2, h3, hsome],
              le_trans hle (le_of_lt hlt)⟩
          · obtain ⟨⟨so, ps1⟩, hin, hle1⟩ := ihIS ps (by omega)
            have hle1' : pMeasure ps1 ≤ pMeasure ps := hle1
            have hlt : pMeasure (pNext ps1) < pMeasure ps :=
              pMeasure_pNext_lt_of_le hle1' hm1
            cases so with
            | some s =>
              obtain ⟨out, hloop, hle⟩ := ihBL (pNext ps1) (acc ++ [s]) (by omega)
              exact ⟨out, by simp [parseBlockLoop, h1, h2, h3, hin, hloop],
                le_trans hle (le_of_lt hlt)⟩
            | none =>
              obtain ⟨out, hloop, hle⟩ := ihBL (pNext ps1) acc (by omega)
              exact ⟨out, by simp [parseBlockLoop, h1, h2, h3, hin, hloop],
                le_trans hle (le_of_lt hlt)⟩
    · -- parseInnerStatement
      intro ps h
      by_cases h1 : ps.curToken.type = .IDENT
      · by_cases h2 : ps.peekToken.type = .ASSIGN
        · obtain ⟨out, has, hle⟩ := ihAS ps (by omega)
          exact ⟨out, by simp [parseInnerStatement, h1, h2, has], hle⟩
        · by_cases h3 : ps.peekToken.type = .LPAREN
          · obtain ⟨out, hcs, hle⟩ := ihCS ps (by omega)
            exact ⟨out, by simp [parseInnerStatement, h1, h2, h3, hcs], hle⟩
          · exact ⟨(none, ps), by simp [parseInnerStatement, h1, h2, h3], le_rfl⟩
      · by_cases h2 : ps.curToken.type = .PRINT
        · obtain ⟨out, hcs, hle⟩ := ihCS ps (by omega)
          exact ⟨out, by simp [parseInnerStatement, h1, h2, hcs], hle⟩
        · by_cases h3 : ps.curToken.type = .RETURN
          · obtain ⟨out, hcs, hle⟩ := ihCS ps (by omega)
            exact ⟨out, by simp [parseInnerStatement, h1, h2, h3, hcs], hle⟩
          · exact ⟨(none, ps), by simp [parseInnerStatement, h1, h2, h3], le_rfl⟩
    · -- parseAssignStatement
      intro ps h
      rcases hE : expectPeek ps .ASSIGN with ⟨ok, ps1⟩
      have hm := expectPeek_eq_measure hE
      cases ok with
      | false => exact ⟨(none, ps1), by simp [parseAssignStatement, hE], hm.1⟩
      | true =>
        have hlt : pMeasure ps1 < pMeasure ps := hm.2 rfl (by decide)
        have hle2 : pMeasure (pNext ps1) ≤ pMeasure ps1 := pMeasure_pNext_le ps1
        obtain ⟨⟨vo, ps3⟩, hpe, hle3⟩ := ihPE (pNext ps1) (by omega)
        have hle3' : pMeasure ps3 ≤ pMeasure (pNext ps1) := hle3
        exact ⟨(some (.assignStmt ps.curToken.literal vo), ps3),
          by simp [parseAssignStatement, hE, hpe],
          show pMeasure ps3 ≤ pMeasure ps by omega⟩
    · -- parseCallStatement
      intro ps h
      rcases hE : expectPeek ps .LPAREN with ⟨ok, ps1⟩
      have hm := expectPeek_eq_measure hE
      cases ok with
      | false => exact ⟨(none, ps1), by simp [parseCallStatement, hE], hm.1⟩
      | true =>
        have hlt : pMeasure ps1 < pMeasure ps := hm.2 rfl (by decide)
        obtain ⟨⟨args, ps2⟩, hal, hle2⟩ := ihAL ps1 (by omega)
        have hle2' : pMeasure ps2 ≤ pMeasure ps1 := hle2
        rcases hE3 : expectPeek ps2 .RPAREN with ⟨ok3, ps3⟩
        have hm3 : pMeasure ps3 ≤ pMeasure ps2 := (expectPeek_eq_measure hE3).1
        cases ok3 with
        | false =>
          exact ⟨(none, ps3), by simp [parseCallStatement, hE, hal, hE3],
            show pMeasure ps3 ≤ pMeasure ps by omega⟩
        | true =>
          exact ⟨(some (.callStmt ps.curToken.literal args), ps3),
            by simp [parseCallStatement, hE, hal, hE3],
            show pMeasure ps3 ≤ pMeasure ps by omega⟩
    · -- parseParameters
      intro ps h
      by_cases h1 : ps.peekToken.type = .RPAREN
      · exact ⟨([], ps), by simp [parseParameters, h1], le_rfl⟩
      · have hle1 : pMeasure (pNext ps) ≤ pMeasure ps := pMeasure_pNext_le ps
        rcases hP : parseParameter (pNext ps) with ⟨po, ps2⟩
        have hle2 : pMeasure ps2 ≤ pMeasure (pNext ps) := by
          have := parseParameter_measure (pNext ps)
          rw [hP] at this
          exact this
        cases po with
        | some p =>
          obtain ⟨out, hppl, hle3⟩ := ihPPL ps2 [p] (by omega)
          exact ⟨out, by simp [parseParameters, h1, hP, hppl], by omega⟩
        | none =>
          obtain ⟨out, hppl, hle3⟩ := ihPPL ps2 [] (by omega)
          exact ⟨out, by simp [parseParameters, h1, hP, hppl], by omega⟩
    · -- parseParametersLoop
      intro ps acc h
      by_cases h1 : ps.peekToken.type = .COMMA
      · have hm1 : 1 ≤ pMeasure ps := pMeasure_pos_of_peek (by simp [h1])
        have hlt1 : pMeasure (pNext ps) < pMeasure ps := pMeasure_pNext_lt ps hm1
        have hle2 : pMeasure (pNext (pNext ps)) ≤ pMeasure (pNext ps) :=
          pMeasure_pNext_le (pNext ps)
        rcases hP : parseParameter (pNext (pNext ps)) with ⟨po, ps2⟩
        have hle3 : pMeasure ps2 ≤ pMeasure (pNext (pNext ps)) := by
          have := parseParameter_measure (pNext (pNext ps))
          rw [hP] at this
          exact this
        cases po with
        | some p =>
          obtain ⟨out, hppl, hle4⟩ := ihPPL ps2 (acc ++ [p]) (by omega)
          exact ⟨out, by simp [parseParametersLoop, h1, hP, hppl], by omega⟩
        | none =>
          obtain ⟨out, hppl, hle4⟩ := ihPPL ps2 acc (by omega)
          exact ⟨out, by simp [parseParametersLoop, h1, hP, hppl], by omega⟩
      · exact ⟨(acc, ps), by simp [parseParametersLoop, h1], le_rfl⟩
    · -- parseArgumentList
      intro ps h
      by_cases h1 : ps.peekToken.type = .RPAREN
      · exact ⟨([], ps), by simp [parseArgumentList, h1], le_rfl⟩
      · have hle1 : pMeasure (pNext ps) ≤ pMeasure ps := pMeasure_pNext_le ps
        obtain ⟨⟨ao, ps2⟩, hpe, hle2⟩ := ihPE (pNext ps) (by omega)
        have hle2' : pMeasure ps2 ≤ pMeasure (pNext ps) := hle2
        cases ao with
        | some a =>
          obtain ⟨out, hall, hle3⟩ := ihALL ps2 [a] (by omega)
          exact ⟨out, by simp [parseArgumentList, h1, hpe, hall], by omega⟩
        | none =>
          obtain ⟨out, hall, hle3⟩ := ihALL ps2 [] (by omega)
          exact ⟨out, by simp [parseArgumentList, h1, hpe, hall], by omega⟩
    · -- parseArgumentListLoop
      intro ps acc h
      by_cases h1 : ps.peekToken.type = .COMMA
      · have hm1 : 1 ≤ pMeasure ps := pMeasure_pos_of_peek (by simp [h1])
        have hlt1 : pMeasure (pNext ps) < pMeasure ps := pMeasure_pNext_lt ps hm1
        have hle2 : pMeasure (pNext (pNext ps)) ≤ pMeasure (pNext ps) :=
          pMeasure_pNext_le (pNext ps)
        obtain ⟨⟨ao, ps2⟩, hpe, hle3⟩ := ihPE (pNext (pNext ps)) (by omega)
        have hle3' : pMeasure ps2 ≤ pMeasure (pNext (pNext ps)) := hle3
        cases ao with
        | some a =>
          obtain ⟨out, hall, hle4⟩ := ihALL ps2 (acc ++ [a]) (by omega)
          exact ⟨out, by simp [parseArgumentListLoop, h1, hpe, hall], by omega⟩
        | none =>
          obtain ⟨out, hall, hle4⟩ := ihALL ps2 acc (by omega)
          exact ⟨out, by simp [parseArgumentListLoop, h1, hpe, hall], by omega⟩
      · exact ⟨(acc, ps), by simp [parseArgumentListLoop, h1], le_rfl⟩
    · -- parseExpression
      intro ps h
      by_cases h1 : ps.curToken.type = .STRING
      · exact ⟨(some (.stringLit ps.curToken.literal), ps),
          by simp [parseExpression, h1], le_rfl⟩
      · by_cases h2 : ps.curToken.type = .INT
        · exact ⟨(some (.stringLit ps.curToken.literal), ps),
            by simp [parseExpression, h1, h2], le_rfl⟩
        · by_cases h3 : ps.curToken.type = .IDENT
          · by_cases h4 : ps.peekToken.type = .LPAREN
            · obtain ⟨out, hce, hle⟩ := ihCE ps (by omega)
              exact ⟨out, by simp [parseExpression, h1, h2, h3, h4, hce], hle⟩
            · exact ⟨(some (.identifier ps.curToken.literal), ps),
                by simp [parseExpression, h1, h2, h3, h4], le_rfl⟩
          · exact ⟨(none, ps), by simp [parseExpression, h1, h2, h3], le_rfl⟩
    · -- parseCallExpression
      intro ps h
      rcases hE : expectPeek ps .LPAREN with ⟨ok, ps1⟩
      have hm := expectPeek_eq_measure hE
      cases ok with
      | false => exact ⟨(none, ps1), by simp [parseCallExpression, hE], hm.1⟩
      | true =>
        have hlt : pMeasure ps1 < pMeasure ps := hm.2 rfl (by decide)
        obtain ⟨⟨args, ps2⟩, hal, hle2⟩ := ihAL ps1 (by omega)
        have hle2' : pMeasure ps2 ≤ pMeasure ps1 := hle2
        rcases hE3 : expectPeek ps2 .RPAREN with ⟨ok3, ps3⟩
        have hm3 : pMeasure ps3 ≤ pMeasure ps2 := (expectPeek_eq_measure hE3).1
        cases ok3 with
        | false =>
          exact ⟨(none, ps3), by simp [parseCallExpression, hE, hal, hE3],
            show pMeasure ps3 ≤ pMeasure ps by omega⟩
        | true =>
          exact ⟨(some (.callExpr ps.curToken.literal args), ps3),
            by simp [parseCallExpression, hE, hal, hE3],
            show pMeasure ps3 ≤ pMeasure ps by omega⟩

/-! ## Claim theorem: parsing always terminates (C10) -/

/-- C10: for every finite input, `ParseProgram` terminates and returns a
Program.  The conjuncts are the claim's own decomposition: once the lexer
reaches end of input, `NextToken` returns the end-of-input token and
leaves the state unchanged (so every subsequent call does the same);
otherwise `NextToken` consumes at least one character; every parser
token-window advance strictly decreases the parser measure whenever it is
positive, so every parser loop makes progress; and consequently the
top-level parse loop, run with the fuel `ParseProgram` gives it, always
returns a result — it cannot run forever on any input. -/
theorem C10_parsing_terminates :
    (∀ l : Lexer, l.input = [] → nextToken l = (⟨.EOF, "", l.line, l.column⟩, l)) ∧
    (∀ l : Lexer, (nextToken l).1.type ≠ .EOF →
      (nextToken l).2.input.length < l.input.length) ∧
    (∀ ps : PState, 1 ≤ pMeasure ps → pMeasure (pNext ps) < pMeasure ps) ∧
    (∀ l : Lexer,
      (parseProgramLoop (4 * pMeasure (parserNew l) + 9) (parserNew l) []).isSome) := by
  refine ⟨nextToken_eof_stable, nextToken_progress, pMeasure_pNext_lt, ?_⟩
  intro l
  obtain ⟨out, hsome, _⟩ :=
    (parserFuelSufficient (4 * pMeasure (parserNew l) + 9)).1 (parserNew l) [] (by omega)
  rw [hsome]
  rfl

/-- Witness for C10 at concrete inputs: the exhausted lexer is stable, a
nonempty input consumes a character, a concrete parser state advances, and
the parse loop completes on a small program. -/
theorem C10_parsing_terminates_witness :
    nextToken (lexerNew []) = (⟨.EOF, "", 1, 0⟩, lexerNew []) ∧
    (nextToken (lexerNew ['x'])).2.input.length < (lexerNew ['x']).input.length ∧
    pMeasure (pNext (parserNew (lexerNew ['x', ' ', 'y']))) <
      pMeasure (parserNew (lexerNew ['x', ' ', 'y'])) ∧
    (parseProgramLoop (4 * pMeasure (parserNew (lexerNew "Entry main() (Int) ".data)) + 9)
      (parserNew (lexerNew "Entry main() (Int) ".data)) []).isSome :=
  ⟨C10_parsing_terminates.1 (lexerNew []) rfl,
   C10_parsing_terminates.2.1 (lexerNew ['x']) (by decide),
   C10_parsing_terminates.2.2.1 (parserNew (lexerNew ['x', ' ', 'y'])) (by decide),
   C10_parsing_terminates.2.2.2 (lexerNew "Entry main() (Int) ".data)⟩

/-! ## Round-trip development (C9)

The claim reconstructs a source text by concatenating token literals with
whitespace separation and re-tokenizes it.  `reconChars` is the
reconstruction, written from the claim's words; `tokenSig` is the
kinds-and-literals view under which two streams are compared (positions
are not part of the claim's equivalence). -/

/-- The claim's reconstruction: the literal texts of the tokens,
concatenated with whitespace separation. -/
def reconChars : List Token → List Char
  | [] => []
  | t :: ts => t.literal.data ++ ' ' :: reconChars ts

/-- The kinds-and-literals view of a token stream. -/
def tokenSig (ts : List Token) : List (TokenType × String) :=
  ts.map fun t => (t.type, t.literal)

/-- A source text containing no string literal (no single-quote
character). -/
def quoteFree (xs : List Char) : Prop := ∀ c ∈ xs, c ≠ squoteChar

/-- A source text free of comments: no `//` and no `/*` occurs. -/
def commentFreeB : List Char → Bool
  | c :: d :: rest => !(c = '/' && (d = '/' || d = '*')) && commentFreeB (d :: rest)
  | _ => true

/-- The character class of `readIdentifier`'s scan. -/
def identGuard (c : Char) : Bool := isLetter c || isDigit c || c = '_'

/-- Facts about a token's first character that the re-tokenizer's dispatch
relies on: not whitespace, not one of the single-character tokens, not a
quote, not the NUL sentinel. -/
def headFacts (c : Char) : Prop :=
  isWhitespaceCh c = false ∧ c ≠ '=' ∧ c ≠ '(' ∧ c ≠ ')' ∧ c ≠ lbraceChar ∧
  c ≠ rbraceChar ∧ c ≠ ',' ∧ c ≠ squoteChar ∧ c ≠ nulChar

/-- The token kinds produced by the identifier path of the dispatch
(`lookupIdent` of the scanned word). -/
def identType : TokenType → Bool
  | .IDENT | .ENTRY | .FUNCTION | .PRINT | .RETURN
  | .INT_TYPE | .STRING_TYPE | .VOID_TYPE => true
  | _ => false

/-- Well-formedness of a produced (non-end) token: its literal re-lexes to
a token of the same kind with the same literal when followed by a space.
The clauses record exactly what the producing dispatch branch knew. -/
def wfToken (t : Token) : Prop :=
  (t.type = .ASSIGN ∧ t.literal = "=") ∨
  (t.type = .LPAREN ∧ t.literal = "(") ∨
  (t.type = .RPAREN ∧ t.literal = ")") ∨
  (t.type = .LBRACE ∧ t.literal = String.singleton lbraceChar) ∨
  (t.type = .RBRACE ∧ t.literal = String.singleton rbraceChar) ∨
  (t.type = .COMMA ∧ t.literal = ",") ∨
  (t.type = .ILLEGAL ∧ ∃ c, t.literal = String.singleton c ∧ headFacts c ∧
    isLetter c = false ∧ isDigit c = false) ∨
  (t.type = .INT ∧ ∃ c cs, t.literal.data = c :: cs ∧ headFacts c ∧ c ≠ '/' ∧
    isLetter c = false ∧ (c :: cs).all isDigit = true) ∨
  (identType t.type = true ∧ ∃ c cs, t.literal.data = c :: cs ∧ headFacts c ∧
    c ≠ '/' ∧ isLetter c = true ∧ (c :: cs).all identGuard = true ∧
    lookupIdent t.literal = t.type)

/-! ### Tokenize unfolding -/

theorem tokenizeF_irrel : ∀ f1 : Nat, ∀ l : Lexer, ∀ f2 : Nat,
    l.input.length < f1 → l.input.length < f2 →
    tokenizeF f1 l = tokenizeF f2 l := by
  intro f1
  induction f1 with
  | zero => intro l f2 h1 _; omega
  | succ f1 ih =>
    intro l f2 h1 h2
    match f2 with
    | 0 => omega
    | f2 + 1 =>
      simp only [tokenizeF]
      by_cases he : (nextToken l).1.type = .EOF
      · simp [he]
      · have hp := nextToken_progress l he
        simp only [he, if_false]
        rw [ih (nextToken l).2 f2 (by omega) (by omega)]

/-- Unfolding `tokenize` when the next token ends the input. -/
theorem tokenize_eof (l : Lexer) (t : Token) (l2 : Lexer)
    (hnt : nextToken l = (t, l2)) (h : t.type = .EOF) : tokenize l = [t] := by
  show tokenizeF (l.input.length + 1) l = [t]
  rw [tokenizeF, hnt]
  show (if t.type = .EOF then [t] else t :: tokenizeF l.input.length l2) = [t]
  rw [if_pos h]

/-- Unfolding `tokenize` at a non-end token. -/
theorem tokenize_cons (l : Lexer) (t : Token) (l2 : Lexer)
    (hnt : nextToken l = (t, l2)) (h : t.type ≠ .EOF) :
    tokenize l = t :: tokenize l2 := by
  have hp : l2.input.length < l.input.length := by
    have h1 : (nextToken l).1.type ≠ .EOF := by rw [hnt]; exact h
    have := nextToken_progress l h1
    rw [hnt] at this
    exact this
  show tokenizeF (l.input.length + 1) l = t :: tokenize l2
  rw [tokenizeF, hnt]
  show (if t.type = .EOF then [t] else t :: tokenizeF l.input.length l2) = t :: tokenize l2
  rw [if_neg h]
  unfold tokenize
  rw [tokenizeF_irrel l.input.length l2 (l2.input.length + 1) hp (by omega)]

/-! ### Suffix lemmas -/

theorem skipTrivia_suffix_aux : ∀ n : Nat, ∀ xs : List Char, xs.length ≤ n →
    ∀ line col,
      ((skipTrivia xs line col).input <:+ xs ∧
        (∀ c r, (skipTrivia xs line col).input = c :: r → isWhitespaceCh c = false)) ∧
      ((skipLineComment xs line col).input <:+ xs ∧
        (∀ c r, (skipLineComment xs line col).input = c :: r → isWhitespaceCh c = false)) ∧
      ((skipBlockComment xs line col).input <:+ xs ∧
        (∀ c r, (skipBlockComment xs line col).input = c :: r →
          isWhitespaceCh c = false)) := by
  intro n
  induction n using Nat.strong_induction_on with
  | _ n ih =>
    intro xs hlen line col
    refine ⟨?_, ?_, ?_⟩
    · rw [skipTrivia.eq_def]
      split
      · exact ⟨List.nil_suffix, by intro c r h; simp at h⟩
      · next c rest =>
        have hrest : rest.length < n := by
          simp only [List.length_cons] at hlen
          omega
        by_cases h1 : c = '\n'
        · rw [if_pos h1]
          have := (ih rest.length hrest rest le_rfl (line + 1) 0).1
          exact ⟨this.1.trans (List.suffix_cons c rest), this.2⟩
        · rw [if_neg h1]
          by_cases h2 : (c = ' ' || c = '\t' || c = '\r') = true
          · rw [if_pos h2]
            have := (ih rest.length hrest rest le_rfl line (col + 1)).1
            exact ⟨this.1.trans (List.suffix_cons c rest), this.2⟩
          · rw [if_neg h2]
            by_cases h3 : c = '/'
            · rw [if_pos h3]
              split
              · next rest2 =>
                have hrest2 : rest2.length < n := by
                  simp only [List.length_cons] at hlen
                  omega
                have := (ih rest2.length hrest2 rest2 le_rfl line (col + 2)).2.1
                refine ⟨this.1.trans ?_, this.2⟩
                exact (List.suffix_cons _ rest2).trans (List.suffix_cons c _)
              · next rest2 =>
                have hrest2 : rest2.length < n := by
                  simp only [List.length_cons] at hlen
                  omega
                have := (ih rest2.length hrest2 rest2 le_rfl line (col + 2)).2.2
                refine ⟨this.1.trans ?_, this.2⟩
                exact (List.suffix_cons _ rest2).trans (List.suffix_cons c _)
              · refine ⟨List.suffix_rfl, ?_⟩
                intro c' r' hcr
                simp only [List.cons.injEq] at hcr
                rw [← hcr.1, h3]
                decide
            · rw [if_neg h3]
              refine ⟨List.suffix_rfl, ?_⟩
              intro c' r' hcr
              simp only [List.cons.injEq] at hcr
              rw [← hcr.1]
              simp only [Bool.or_eq_true, decide_eq_true_eq] at h2
              push_neg at h2
              obtain ⟨⟨ha, hb⟩, hc⟩ := h2
              simp [isWhitespaceCh, h1, ha, hb, hc]
    · rw [skipLineComment.eq_def]
      split
      · exact ⟨List.nil_suffix, by intro c r h; simp at h⟩
      · next c rest =>
        have hrest : rest.length < n := by
          simp only [List.length_cons] at hlen
          omega
        by_cases h1 : c = '\n'
        · rw [if_pos h1]
          have := (ih rest.length hrest rest le_rfl (line + 1) 0).1
          exact ⟨this.1.trans (List.suffix_cons c rest), this.2⟩
        · rw [if_neg h1]
          have := (ih rest.length hrest rest le_rfl line (col + 1)).2.1
          exact ⟨this.1.trans (List.suffix_cons c rest), this.2⟩
    · rw [skipBlockComment.eq_def]
      split
      · exact ⟨List.nil_suffix, by intro c r h; simp at h⟩
      · next rest2 =>
        have hrest2 : rest2.length < n := by
          simp only [List.length_cons] at hlen
          omega
        have := (ih rest2.length hrest2 rest2 le_rfl line (col + 2)).1
        refine ⟨this.1.trans ?_, this.2⟩
        exact (List.suffix_cons _ rest2).trans (List.suffix_cons _ _)
      · next rest1 =>
        have hrest : rest1.length < n := by
          simp only [List.length_cons] at hlen
          omega
        have := (ih rest1.length hrest rest1 le_rfl (line + 1) 0).2.2
        exact ⟨this.1.trans (List.suffix_cons _ rest1), this.2⟩
      · next c1 rest1 hov1 hov2 =>
        have hrest : rest1.length < n := by
          simp only [List.length_cons] at hlen
          omega
        have := (ih rest1.length hrest rest1 le_rfl line (col + 1)).2.2
        exact ⟨this.1.trans (List.suffix_cons _ rest1), this.2⟩

/-- The trivia skipper leaves a suffix of its input. -/
theorem skipTrivia_suffix (xs : List Char) (line col : Nat) :
    (skipTrivia xs line col).input <:+ xs :=
  ((skipTrivia_suffix_aux xs.length xs le_rfl line col).1).1

/-- The trivia skipper never stops on whitespace. -/
theorem skipTrivia_head {xs : List Char} {line col : Nat} {c : Char} {r : List Char}
    (h : (skipTrivia xs line col).input = c :: r) : isWhitespaceCh c = false :=
  ((skipTrivia_suffix_aux xs.length xs le_rfl line col).1).2 c r h

theorem readIdentifier_suffix (xs : List Char) : (readIdentifier xs).2 <:+ xs := by
  induction xs with
  | nil => simp [readIdentifier]
  | cons c rest ih =>
    rw [readIdentifier]
    by_cases h : (isLetter c || isDigit c || c = '_') = true
    · simp only [h, if_true]
      exact ih.trans (List.suffix_cons c rest)
    · simp [h]

theorem readNumber_suffix (xs : List Char) : (readNumber xs).2 <:+ xs := by
  induction xs with
  | nil => simp [readNumber]
  | cons c rest ih =>
    rw [readNumber]
    by_cases h : isDigit c = true
    · simp only [h, if_true]
      exact ih.trans (List.suffix_cons c rest)
    · simp [h]

theorem readString_suffix (xs : List Char) : (readString xs).2 <:+ xs := by
  induction xs using readString.induct with
  | case1 => simp [readString.eq_def]
  | case2 c rest h =>
    rw [readString.eq_def]
    simp only [h, if_true]
    exact List.suffix_cons c rest
  | case3 h =>
    rw [readString.eq_def]
    simp only [h, if_false]
    simp
  | case4 rest h =>
    rw [readString.eq_def]
    simp only [h, if_false]
    simp only [Bool.false_eq_true, if_false, if_true]
    exact (List.suffix_cons _ rest).trans (List.suffix_cons _ _)
  | case5 c rest hc cs r hread h ih =>
    rw [readString.eq_def]
    simp only [h, if_false, hc, hread]
    simp only [Bool.false_eq_true, if_false, if_true]
    rw [hread] at ih
    exact ih.trans ((List.suffix_cons _ rest).trans (List.suffix_cons _ _))
  | case6 c rest h hb cs r hread ih =>
    rw [readString.eq_def]
    simp only [h, if_false, hb, hread]
    simp only [Bool.false_eq_true, if_false]
    rw [hread] at ih
    exact ih.trans (List.suffix_cons c rest)

/-- `NextToken` leaves a suffix of its input. -/
theorem nextToken_suffix (l : Lexer) : (nextToken l).2.input <:+ l.input := by
  unfold nextToken
  have hsuf := skipTrivia_suffix l.input l.line l.column
  cases hv : (skipTrivia l.input l.line l.column).input with
  | nil => simpa [hv] using hsuf
  | cons c rest =>
    rw [hv] at hsuf
    have hrest : rest <:+ l.input := (List.suffix_cons c rest).trans hsuf
    simp only [hv]
    by_cases h1 : c = '='
    · simp only [h1, if_true]; exact hrest
    simp only [h1, if_false]
    by_cases h2 : c = '('
    · simp only [h2, if_true]; exact hrest
    simp only [h2, if_false]
    by_cases h3 : c = ')'
    · simp only [h3, if_true]; exact hrest
    simp only [h3, if_false]
    by_cases h4 : c = lbraceChar
    · simp only [h4, if_true]; exact hrest
    simp only [h4, if_false]
    by_cases h5 : c = rbraceChar
    · simp only [h5, if_true]; exact hrest
    simp only [h5, if_false]
    by_cases h6 : c = ','
    · simp only [h6, if_true]; exact hrest
    simp only [h6, if_false]
    by_cases h7 : c = squoteChar
    · simp only [h7, if_true]
      exact (readString_suffix rest).trans hrest
    simp only [h7, if_false]
    by_cases h8 : c = nulChar
    · simp only [h8, if_true]; exact hrest
    simp only [h8, if_false]
    by_cases h9 : isLetter c = true
    · simp only [h9, if_true]
      exact (readIdentifier_suffix (c :: rest)).trans hsuf
    simp only [h9, if_false]
    by_cases h10 : isDigit c = true
    · simp only [h10, if_true]
      exact (readNumber_suffix (c :: rest)).trans hsuf
    simp only [h10, if_false]
    exact hrest

/-! ### Tokens produced from a string-literal-free input are well-formed -/

theorem quoteFree_suffix {xs ys : List Char} (h : ys <:+ xs) (hq : quoteFree xs) :
    quoteFree ys := fun c hc => hq c (h.subset hc)

theorem lookupIdent_identType (s : String) : identType (lookupIdent s) = true := by
  unfold lookupIdent
  split_ifs <;> rfl

theorem identType_ne_eof {tt : TokenType} (h : identType tt = true) : tt ≠ .EOF := by
  intro he
  subst he
  simp [identType] at h

theorem wfToken_ne_eof {t : Token} (h : wfToken t) : t.type ≠ .EOF := by
  rcases h with ⟨h1, _⟩ | ⟨h1, _⟩ | ⟨h1, _⟩ | ⟨h1, _⟩ | ⟨h1, _⟩ | ⟨h1, _⟩ |
    ⟨h1, _⟩ | ⟨h1, _⟩ | ⟨h1, _⟩
  all_goals first
    | (rw [h1]; decide)
    | exact identType_ne_eof h1

theorem bool_eq_false {b : Bool} (h : ¬ b = true) : b = false := by
  cases b
  · rfl
  · exact absurd rfl h

theorem readIdentifier_chars (xs : List Char) :
    (readIdentifier xs).1.all identGuard = true := by
  induction xs with
  | nil => rfl
  | cons c rest ih =>
    rw [readIdentifier]
    by_cases h : (isLetter c || isDigit c || c = '_') = true
    · simp only [if_pos h, List.all_cons, Bool.and_eq_true]
      exact ⟨h, ih⟩
    · simp [h]

theorem readNumber_chars (xs : List Char) :
    (readNumber xs).1.all isDigit = true := by
  induction xs with
  | nil => rfl
  | cons c rest ih =>
    rw [readNumber]
    by_cases h : isDigit c = true
    · simp only [if_pos h, List.all_cons, Bool.and_eq_true]
      exact ⟨h, ih⟩
    · simp [h]

/-- `readIdentifier` on a guard-satisfying head. -/
theorem readIdentifier_cons_of (c : Char) (rest : List Char)
    (h : (isLetter c || isDigit c || c = '_') = true) :
    readIdentifier (c :: rest) =
      (c :: (readIdentifier rest).1, (readIdentifier rest).2) := by
  rw [readIdentifier]
  simp only [h, if_true]

/-- `readNumber` on a digit head. -/
theorem readNumber_cons_of (c : Char) (rest : List Char) (h : isDigit c = true) :
    readNumber (c :: rest) = (c :: (readNumber rest).1, (readNumber rest).2) := by
  rw [readNumber]
  simp only [h, if_true]

/-- Each `NextToken` result from a string-literal-free input is either the
end-of-input token with an empty literal, or a well-formed token. -/
theorem nextToken_wf (l : Lexer) (hq : quoteFree l.input) :
    ((nextToken l).1.type = .EOF → (nextToken l).1.literal = "") ∧
    ((nextToken l).1.type ≠ .EOF → wfToken (nextToken l).1) := by
  have hsuf := skipTrivia_suffix l.input l.line l.column
  cases hv : (skipTrivia l.input l.line l.column).input with
  | nil =>
    have hlit : (nextToken l).1.literal = "" := by
      unfold nextToken
      simp only [hv]
    exact ⟨fun _ => hlit, fun hne => absurd (by unfold nextToken; simp only [hv]) hne⟩
  | cons c rest =>
    have hws : isWhitespaceCh c = false := skipTrivia_head hv
    have hmem : c ∈ l.input := by
      rw [hv] at hsuf
      exact hsuf.subset (List.mem_cons_self c rest)
    by_cases h1 : c = '='
    · have hty : (nextToken l).1.type = .ASSIGN := by
        unfold nextToken
        simp only [hv, if_pos h1]
      have hlit : (nextToken l).1.literal = String.singleton c := by
        unfold nextToken
        simp only [hv, if_pos h1]
      exact ⟨fun he => absurd (hty.symm.trans he) (by decide),
        fun _ => Or.inl ⟨hty, hlit.trans (by subst h1; rfl)⟩⟩
    by_cases h2 : c = '('
    · have hty : (nextToken l).1.type = .LPAREN := by
        unfold nextToken
        simp only [hv, if_neg h1, if_pos h2]
      have hlit : (nextToken l).1.literal = String.singleton c := by
        unfold nextToken
        simp only [hv, if_neg h1, if_pos h2]
      exact ⟨fun he => absurd (hty.symm.trans he) (by decide),
        fun _ => Or.inr (Or.inl ⟨hty, hlit.trans (by subst h2; rfl)⟩)⟩
    by_cases h3 : c = ')'
    · have hty : (nextToken l).1.type = .RPAREN := by
        unfold nextToken
        simp only [hv, if_neg h1, if_neg h2, if_pos h3]
      have hlit : (nextToken l).1.literal = String.singleton c := by
        unfold nextToken
        simp only [hv, if_neg h1, if_neg h2, if_pos h3]
      exact ⟨fun he => absurd (hty.symm.trans he) (by decide),
        fun _ => Or.inr (Or.inr (Or.inl ⟨hty, hlit.trans (by subst h3; rfl)⟩))⟩
    by_cases h4 : c = lbraceChar
    · have hty : (nextToken l).1.type = .LBRACE := by
        unfold nextToken
        simp only [hv, if_neg h1, if_neg h2, if_neg h3, if_pos h4]
      have hlit : (nextToken l).1.literal = String.singleton c := by
        unfold nextToken
        simp only [hv, if_neg h1, if_neg h2, if_neg h3, if_pos h4]
      exact ⟨fun he => absurd (hty.symm.trans he) (by decide),
        fun _ => Or.inr (Or.inr (Or.inr (Or.inl ⟨hty, hlit.trans (by subst h4; rfl)⟩)))⟩
    by_cases h5 : c = rbraceChar
    · have hty : (nextToken l).1.type = .RBRACE := by
        unfold nextToken
        simp only [hv, if_neg h1, if_neg h2, if_neg h3, if_neg h4, if_pos h5]
      have hlit : (nextToken l).1.literal = String.singleton c := by
        unfold nextToken
        simp only [hv, if_neg h1, if_neg h2, if_neg h3, if_neg h4, if_pos h5]
      exact ⟨fun he => absurd (hty.symm.trans he) (by decide),
        fun _ => Or.inr (Or.inr (Or.inr (Or.inr (Or.inl
          ⟨hty, hlit.trans (by subst h5; rfl)⟩))))⟩
    by_cases h6 : c = ','
    · have hty : (nextToken l).1.type = .COMMA := by
        unfold nextToken
        simp only [hv, if_neg h1, if_neg h2, if_neg h3, if_neg h4, if_neg h5, if_pos h6]
      have hlit : (nextToken l).1.literal = String.singleton c := by
        unfold nextToken
        simp only [hv, if_neg h1, if_neg h2, if_neg h3, if_neg h4, if_neg h5, if_pos h6]
      exact ⟨fun he => absurd (hty.symm.trans he) (by decide),
        fun _ => Or.inr (Or.inr (Or.inr (Or.inr (Or.inr (Or.inl
          ⟨hty, hlit.trans (by subst h6; rfl)⟩)))))⟩
    by_cases h7 : c = squoteChar
    · exact absurd h7 (hq c hmem)
    by_cases h8 : c = nulChar
    · have hty : (nextToken l).1.type = .EOF := by
        unfold nextToken
        simp only [hv, if_neg h1, if_neg h2, if_neg h3, if_neg h4, if_neg h5, if_neg h6, if_neg h7, if_pos h8]
      have hlit : (nextToken l).1.literal = "" := by
        unfold nextToken
        simp only [hv, if_neg h1, if_neg h2, if_neg h3, if_neg h4, if_neg h5, if_neg h6, if_neg h7, if_pos h8]
      exact ⟨fun _ => hlit, fun hne => absurd hty hne⟩
    by_cases h9 : isLetter c = true
    · have hri := readIdentifier_cons_of c rest (by simp [h9])
      have hty : (nextToken l).1.type = lookupIdent ⟨c :: (readIdentifier rest).1⟩ := by
        unfold nextToken
        simp only [hv, if_neg h1, if_neg h2, if_neg h3, if_neg h4, if_neg h5, if_neg h6, if_neg h7, if_neg h8, if_pos h9, hri]
      have hlit : (nextToken l).1.literal = ⟨c :: (readIdentifier rest).1⟩ := by
        unfold nextToken
        simp only [hv, if_neg h1, if_neg h2, if_neg h3, if_neg h4, if_neg h5, if_neg h6, if_neg h7, if_neg h8, if_pos h9, hri]
      constructor
      · intro he
        have hid := lookupIdent_identType ⟨c :: (readIdentifier rest).1⟩
        rw [hty.symm.trans he] at hid
        exact absurd hid (by decide)
      · intro hne
        refine Or.inr (Or.inr (Or.inr (Or.inr (Or.inr (Or.inr (Or.inr (Or.inr
          ⟨?_, c, (readIdentifier rest).1, ?_,
            ⟨hws, h1, h2, h3, h4, h5, h6, h7, h8⟩, ?_, h9, ?_, ?_⟩)))))))
        · rw [hty]
          exact lookupIdent_identType _
        · rw [hlit]
        · intro heq
          rw [heq] at h9
          exact absurd h9 (by decide)
        · simp only [List.all_cons, Bool.and_eq_true]
          refine ⟨?_, readIdentifier_chars rest⟩
          simp [identGuard, h9]
        · rw [hlit, hty]
    by_cases h10 : isDigit c = true
    · have hrn := readNumber_cons_of c rest h10
      have hty : (nextToken l).1.type = .INT := by
        unfold nextToken
        simp only [hv, if_neg h1, if_neg h2, if_neg h3, if_neg h4, if_neg h5, if_neg h6, if_neg h7, if_neg h8, if_neg h9, if_pos h10, hrn]
      have hlit : (nextToken l).1.literal = ⟨c :: (readNumber rest).1⟩ := by
        unfold nextToken
        simp only [hv, if_neg h1, if_neg h2, if_neg h3, if_neg h4, if_neg h5, if_neg h6, if_neg h7, if_neg h8, if_neg h9, if_pos h10, hrn]
      refine ⟨fun he => absurd (hty.symm.trans he) (by decide),
        fun _ => Or.inr (Or.inr (Or.inr (Or.inr (Or.inr (Or.inr (Or.inr (Or.inl
          ⟨hty, c, (readNumber rest).1, ?_,
            ⟨hws, h1, h2, h3, h4, h5, h6, h7, h8⟩, ?_, ?_, ?_⟩)))))))⟩
      · rw [hlit]
      · intro heq
        rw [heq] at h10
        exact absurd h10 (by decide)
      · exact bool_eq_false h9
      · simp only [List.all_cons, Bool.and_eq_true]
        exact ⟨h10, readNumber_chars rest⟩
    · have hty : (nextToken l).1.type = .ILLEGAL := by
        unfold nextToken
        simp only [hv, if_neg h1, if_neg h2, if_neg h3, if_neg h4, if_neg h5, if_neg h6, if_neg h7, if_neg h8, if_neg h9, if_neg h10]
      have hlit : (nextToken l).1.literal = String.singleton c := by
        unfold nextToken
        simp only [hv, if_neg h1, if_neg h2, if_neg h3, if_neg h4, if_neg h5, if_neg h6, if_neg h7, if_neg h8, if_neg h9, if_neg h10]
      exact ⟨fun he => absurd (hty.symm.trans he) (by decide),
        fun _ => Or.inr (Or.inr (Or.inr (Or.inr (Or.inr (Or.inr (Or.inl
          ⟨hty, c, hlit, ⟨hws, h1, h2, h3, h4, h5, h6, h7, h8⟩,
            bool_eq_false h9, bool_eq_false h10⟩))))))⟩

/-! ### Re-lexing well-formed tokens -/

theorem bool_not_true {b : Bool} (h : b = false) : ¬ b = true := by
  rw [h]
  decide

/-- The trivia skipper does not move on a non-whitespace head when the
following character opens no comment. -/
theorem skipTrivia_id_seq (c : Char) (ys : List Char) (line col : Nat)
    (hws : isWhitespaceCh c = false)
    (hy : ∀ d rest2, ys = d :: rest2 → d ≠ '/' ∧ d ≠ '*') :
    skipTrivia (c :: ys) line col = ⟨c :: ys, line, col⟩ := by
  simp only [isWhitespaceCh, Bool.or_eq_false_iff, decide_eq_false_iff_not] at hws
  obtain ⟨⟨⟨hsp, hts⟩, hnl⟩, hcr⟩ := hws
  rw [skipTrivia.eq_def]
  split
  · next heq => exact absurd heq (by simp)
  · next c2 rest2 heq =>
    injection heq with h1 h2
    subst h1
    subst h2
    rw [if_neg hnl]
    rw [if_neg (show ¬((c = ' ' || c = '\t' || c = '\r') = true) by simp [hsp, hts, hcr])]
    by_cases hsl : c = '/'
    · rw [if_pos hsl]
      split
      · exact absurd rfl (hy '/' _ rfl).1
      · exact absurd rfl (hy '*' _ rfl).2
      · rfl
    · rw [if_neg hsl]

/-- `readIdentifier` consumes exactly a guard-satisfying prefix. -/
theorem readIdentifier_append : ∀ (lit : List Char) (d : Char) (r : List Char),
    lit.all identGuard = true → identGuard d = false →
    readIdentifier (lit ++ d :: r) = (lit, d :: r) := by
  intro lit
  induction lit with
  | nil =>
    intro d r _ hd
    rw [List.nil_append, readIdentifier]
    rw [if_neg (bool_not_true
      (show (isLetter d || isDigit d || d = '_') = false from hd))]
  | cons c tail ih =>
    intro d r hall hd
    simp only [List.all_cons, Bool.and_eq_true] at hall
    rw [List.cons_append, readIdentifier]
    rw [if_pos (show (isLetter c || isDigit c || c = '_') = true from hall.1)]
    rw [ih d r hall.2 hd]

/-- `readNumber` consumes exactly a digit prefix. -/
theorem readNumber_append : ∀ (lit : List Char) (d : Char) (r : List Char),
    lit.all isDigit = true → isDigit d = false →
    readNumber (lit ++ d :: r) = (lit, d :: r) := by
  intro lit
  induction lit with
  | nil =>
    intro d r _ hd
    rw [List.nil_append, readNumber]
    rw [if_neg (bool_not_true hd)]
  | cons c tail ih =>
    intro d r hall hd
    simp only [List.all_cons, Bool.and_eq_true] at hall
    rw [List.cons_append, readNumber]
    rw [if_pos hall.1]
    rw [ih d r hall.2 hd]

/-- Re-lexing a well-formed token's literal followed by a space yields the
same kind and the same literal, stopping exactly at the space. -/
theorem nextToken_relex (t : Token) (r : List Char) (line col : Nat)
    (hwf : wfToken t) :
    (nextToken ⟨t.literal.data ++ ' ' :: r, line, col⟩).1.type = t.type ∧
    (nextToken ⟨t.literal.data ++ ' ' :: r, line, col⟩).1.literal = t.literal ∧
    (nextToken ⟨t.literal.data ++ ' ' :: r, line, col⟩).2.input = ' ' :: r := by
  rcases hwf with ⟨hty, hlit⟩ | ⟨hty, hlit⟩ | ⟨hty, hlit⟩ | ⟨hty, hlit⟩ | ⟨hty, hlit⟩ |
    ⟨hty, hlit⟩ | ⟨hty, c, hlit, hhf, hnl, hnd⟩ | ⟨hty, c, cs, hdata, hhf, hsl, hnl, hall⟩ |
    ⟨hidt, c, cs, hdata, hhf, hsl, hl, hall, hlook⟩
  · rw [hty, hlit]
    exact ⟨rfl, rfl, rfl⟩
  · rw [hty, hlit]
    exact ⟨rfl, rfl, rfl⟩
  · rw [hty, hlit]
    exact ⟨rfl, rfl, rfl⟩
  · rw [hty, hlit]
    exact ⟨rfl, rfl, rfl⟩
  · rw [hty, hlit]
    exact ⟨rfl, rfl, rfl⟩
  · rw [hty, hlit]
    exact ⟨rfl, rfl, rfl⟩
  · -- ILLEGAL
    obtain ⟨hws, hq1, hq2, hq3, hq4, hq5, hq6, hq7, hq8⟩ := hhf
    rw [hty, hlit]
    simp only [show (String.singleton c).data = [c] from rfl, List.singleton_append]
    have hsk := skipTrivia_id_seq c (' ' :: r) line col hws
      (fun d rest2 heq => by
        injection heq with e1 _
        subst e1
        exact ⟨by decide, by decide⟩)
    unfold nextToken
    simp only [hsk]
    simp only [if_neg hq1, if_neg hq2, if_neg hq3, if_neg hq4, if_neg hq5, if_neg hq6,
      if_neg hq7, if_neg hq8, if_neg (bool_not_true hnl), if_neg (bool_not_true hnd)]
    exact ⟨by trivial, by trivial, by trivial⟩
  · -- INT
    obtain ⟨hws, hq1, hq2, hq3, hq4, hq5, hq6, hq7, hq8⟩ := hhf
    have hstr : t.literal = ⟨c :: cs⟩ := by
      rw [← hdata]
    rw [hty, hstr]
    simp only [show (String.mk (c :: cs)).data = c :: cs from rfl, List.cons_append]
    have hsk := skipTrivia_id_seq c (cs ++ ' ' :: r) line col hws (by
      intro d rest2 heq
      have hd : isDigit d = true ∨ d = ' ' := by
        cases cs with
        | nil =>
          simp only [List.nil_append] at heq
          injection heq with e1 _
          exact Or.inr e1.symm
        | cons e cs2 =>
          simp only [List.cons_append] at heq
          injection heq with e1 _
          left
          rw [← e1]
          simp only [List.all_cons, Bool.and_eq_true] at hall
          exact hall.2.1
      rcases hd with hd | hd
      · exact ⟨fun h => by rw [h] at hd; exact absurd hd (by decide),
          fun h => by rw [h] at hd; exact absurd hd (by decide)⟩
      · subst hd
        exact ⟨by decide, by decide⟩)
    have hdig : isDigit c = true := by
      simp only [List.all_cons, Bool.and_eq_true] at hall
      exact hall.1
    have hrn := readNumber_append (c :: cs) ' ' r hall (by decide)
    rw [List.cons_append] at hrn
    unfold nextToken
    simp only [hsk]
    simp only [if_neg hq1, if_neg hq2, if_neg hq3, if_neg hq4, if_neg hq5, if_neg hq6,
      if_neg hq7, if_neg hq8, if_neg (bool_not_true hnl), if_pos hdig, hrn]
    exact ⟨by trivial, by trivial, by trivial⟩
  · -- IDENT and keywords
    obtain ⟨hws, hq1, hq2, hq3, hq4, hq5, hq6, hq7, hq8⟩ := hhf
    have hstr : t.literal = ⟨c :: cs⟩ := by
      rw [← hdata]
    rw [hstr] at hlook
    rw [← hlook]
    rw [hstr]
    simp only [show (String.mk (c :: cs)).data = c :: cs from rfl, List.cons_append]
    have hsk := skipTrivia_id_seq c (cs ++ ' ' :: r) line col hws (by
      intro d rest2 heq
      have hd : identGuard d = true ∨ d = ' ' := by
        cases cs with
        | nil =>
          simp only [List.nil_append] at heq
          injection heq with e1 _
          exact Or.inr e1.symm
        | cons e cs2 =>
          simp only [List.cons_append] at heq
          injection heq with e1 _
          left
          rw [← e1]
          simp only [List.all_cons, Bool.and_eq_true] at hall
          exact hall.2.1
      rcases hd with hd | hd
      · exact ⟨fun h => by rw [h] at hd; exact absurd hd (by decide),
          fun h => by rw [h] at hd; exact absurd hd (by decide)⟩
      · subst hd
        exact ⟨by decide, by decide⟩)
    have hri := readIdentifier_append (c :: cs) ' ' r hall (by decide)
    rw [List.cons_append] at hri
    unfold nextToken
    simp only [hsk]
    simp only [if_neg hq1, if_neg hq2, if_neg hq3, if_neg hq4, if_neg hq5, if_neg hq6,
      if_neg hq7, if_neg hq8, if_pos hl, hri]
    exact ⟨by trivial, by trivial, by trivial⟩

/-- A leading space is skipped without affecting the token stream. -/
theorem tokenize_space (ys : List Char) (line col : Nat) :
    tokenize ⟨' ' :: ys, line, col⟩ = tokenize ⟨ys, line, col + 1⟩ := by
  have hsk : skipTrivia (' ' :: ys) line col = skipTrivia ys line (col + 1) := rfl
  have hnt : nextToken ⟨' ' :: ys, line, col⟩ = nextToken ⟨ys, line, col + 1⟩ := by
    unfold nextToken
    simp only [hsk]
  rcases he : nextToken ⟨ys, line, col + 1⟩ with ⟨t, l2⟩
  by_cases ht : t.type = .EOF
  · rw [tokenize_eof _ t l2 (hnt.trans he) ht, tokenize_eof _ t l2 he ht]
  · rw [tokenize_cons _ t l2 (hnt.trans he) ht, tokenize_cons _ t l2 he ht]

theorem reconChars_append (xs ys : List Token) :
    reconChars (xs ++ ys) = reconChars xs ++ reconChars ys := by
  induction xs with
  | nil => rfl
  | cons t rest ih => simp [reconChars, ih]

/-- From a string-literal-free input, the token stream is a sequence of
well-formed tokens closed by the end-of-input token with empty literal. -/
theorem tokenize_shape : ∀ n : Nat, ∀ l : Lexer, l.input.length ≤ n →
    quoteFree l.input →
    ∃ ts e, tokenize l = ts ++ [e] ∧ e.type = .EOF ∧ e.literal = "" ∧
      ∀ t ∈ ts, wfToken t := by
  intro n
  induction n using Nat.strong_induction_on with
  | _ n ih =>
    intro l hlen hq
    rcases hnt : nextToken l with ⟨t, l2⟩
    by_cases he : t.type = .EOF
    · refine ⟨[], t, tokenize_eof l t l2 hnt he, he, ?_, by simp⟩
      have hw := (nextToken_wf l hq).1
      rw [hnt] at hw
      exact hw he
    · have hwf : wfToken t := by
        have hw := (nextToken_wf l hq).2
        rw [hnt] at hw
        exact hw he
      have hlt : l2.input.length < l.input.length := by
        have h1 : (nextToken l).1.type ≠ .EOF := by rw [hnt]; exact he
        have h2 := nextToken_progress l h1
        rw [hnt] at h2
        exact h2
      have hq2 : quoteFree l2.input := by
        have hs := nextToken_suffix l
        rw [hnt] at hs
        exact quoteFree_suffix hs hq
      obtain ⟨ts2, e, heq, hety, helit, hwfs⟩ :=
        ih l2.input.length (by omega) l2 le_rfl hq2
      refine ⟨t :: ts2, e, ?_, hety, helit, ?_⟩
      · rw [tokenize_cons l t l2 hnt he, heq]
        rfl
      · intro x hx
        rcases List.mem_cons.mp hx with hx | hx
        · rw [hx]
          exact hwf
        · exact hwfs x hx

/-- Re-tokenizing the reconstruction of a well-formed token list (the end
token contributes the final separator) reproduces all kinds and literals. -/
theorem tokenize_relex : ∀ ts : List Token, (∀ t ∈ ts, wfToken t) →
    ∀ line col,
    tokenSig (tokenize ⟨reconChars ts ++ [' '], line, col⟩) =
      (ts.map fun t => (t.type, t.literal)) ++ [(.EOF, "")] := by
  intro ts
  induction ts with
  | nil =>
    intro _ line col
    have hnt : nextToken ⟨reconChars [] ++ [' '], line, col⟩ =
        (⟨.EOF, "", line, col + 1⟩, ⟨[], line, col + 1⟩) := rfl
    rw [tokenize_eof _ _ _ hnt rfl]
    rfl
  | cons t rest ih =>
    intro hwf line col
    have hwt : wfToken t := hwf t (List.mem_cons_self t rest)
    have hrel := nextToken_relex t (reconChars rest ++ [' ']) line col hwt
    have hshape : reconChars (t :: rest) ++ [' '] =
        t.literal.data ++ ' ' :: (reconChars rest ++ [' ']) := by
      simp [reconChars]
    rw [hshape]
    rcases hnt : nextToken ⟨t.literal.data ++ ' ' :: (reconChars rest ++ [' ']), line, col⟩
      with ⟨t2, l2⟩
    rw [hnt] at hrel
    obtain ⟨hty2, hlit2, hin2⟩ := hrel
    have hne : t2.type ≠ .EOF := by
      rw [hty2]
      exact wfToken_ne_eof hwt
    rw [tokenize_cons _ t2 l2 hnt hne]
    show (t2.type, t2.literal) :: tokenSig (tokenize l2) = _
    have hl2eq : l2 = ⟨' ' :: (reconChars rest ++ [' ']), l2.line, l2.column⟩ := by
      cases l2 with
      | mk i li co =>
        simp only at hin2
        rw [hin2]
    have hl2 : tokenize l2 = tokenize ⟨reconChars rest ++ [' '], l2.line, l2.column + 1⟩ := by
      rw [hl2eq]
      exact tokenize_space _ _ _
    rw [hty2, hlit2, hl2]
    rw [ih (fun x hx => hwf x (List.mem_cons_of_mem t hx)) l2.line (l2.column + 1)]
    rfl

/-! ### C9: the round-trip claim -/

/-- Counterexample to C9 as stated: the source text consisting of the
string literal with the two characters h,i.  Its STRING token carries the
literal without the quotes, so the reconstructed text re-tokenizes to an
identifier token, not a string token. -/
theorem C9_string_literal_counterexample :
    tokenSig (tokenize (lexerNew (reconChars (tokenize (lexerNew
        [squoteChar, 'h', 'i', squoteChar]))))) ≠
      tokenSig (tokenize (lexerNew [squoteChar, 'h', 'i', squoteChar])) := by
  decide

/-- C9 (amended): for every source text free of comments and of string
literals, concatenating the literal texts of the produced tokens with
whitespace separation and re-running the tokenizer yields an equivalent
token stream: the same token kinds with the same literals in the same
order. -/
theorem C9_round_trip_amended (xs : List Char) (hq : quoteFree xs)
    (_hcf : commentFreeB xs = true) :
    tokenSig (tokenize (lexerNew (reconChars (tokenize (lexerNew xs))))) =
      tokenSig (tokenize (lexerNew xs)) := by
  obtain ⟨ts, e, heq, hety, helit, hwf⟩ :=
    tokenize_shape xs.length (lexerNew xs) le_rfl hq
  rw [heq]
  have hrc : reconChars (ts ++ [e]) = reconChars ts ++ [' '] := by
    rw [reconChars_append]
    simp [reconChars, helit]
  rw [hrc]
  show tokenSig (tokenize ⟨reconChars ts ++ [' '], 1, 0⟩) = _
  rw [tokenize_relex ts hwf 1 0]
  simp [tokenSig, hety, helit]

/-- Witness: a concrete comment-free, string-literal-free source
satisfies the amended round-trip. -/
theorem C9_round_trip_amended_witness :
    tokenSig (tokenize (lexerNew (reconChars (tokenize (lexerNew
        "Print(x) = 42".data))))) =
      tokenSig (tokenize (lexerNew "Print(x) = 42".data)) :=
  C9_round_trip_amended "Print(x) = 42".data
    (by show ∀ c ∈ "Print(x) = 42".data, c ≠ squoteChar
        decide)
    (by decide)

end Dread
